import Mathlib

/-!
Verification of the mesh-topology edit operations (`insert_vertex_on_edge`,
`substitute_vertex_in_faces`, `split_face`) and of the plotter's
`zoom_extents`, against a shallow embedding of the repository.

The mesh store and its edit operations are not shipped in this source
fragment (only their unit tests are), so they are modelled from the
specification; `zoom_extents` is translated from
`src/compas_plotters/geometryplotter.py`.
-/

deriving instance DecidableEq for Except

namespace Compas

/-- A vertex coordinate triple.  The source stores floats; we use rationals. -/
abbrev Point := Rat × Rat × Rat

/-- Error kinds of the mesh store: `notFound` for a missing vertex, face or
edge, `valueError` for an operation-specific precondition violation. -/
inductive MErr where
  | notFound
  | valueError
deriving DecidableEq, Repr

/-- Modelled from the spec: the mesh topology store.  It holds vertices
(identifier to coordinate), faces (identifier to ordered cyclic vertex
sequence) and the two monotone identifier-allocation counters (§9:
"an explicit monotonically increasing counter owned by the mesh store"). -/
structure Mesh where
  vertices : List (Nat × Point)
  faces : List (Nat × List Nat)
  maxVertex : Nat
  maxFace : Nat
deriving DecidableEq, Repr

/-- Modelled from the spec: `Mesh.from_vertices_and_faces` keys vertices and
faces `0, 1, ...` in input order. -/
def fromVerticesAndFaces (vs : List Point) (fs : List (List Nat)) : Mesh where
  vertices := vs.enum
  faces := fs.enum
  maxVertex := vs.length - 1
  maxFace := fs.length - 1

/-- Whether `k` is a vertex identifier of the mesh. -/
def hasVertexB (m : Mesh) (k : Nat) : Bool :=
  m.vertices.any (fun p => p.1 == k)

/-- The coordinate of vertex `k` (a default when absent). -/
def vertexPoint (m : Mesh) (k : Nat) : Point :=
  (m.vertices.find? (fun p => p.1 == k)).elim ((0 : Rat), (0 : Rat), (0 : Rat)) (fun p => p.2)

/-- The ordered vertex sequence of face `f`, when the face exists. -/
def lookupFace (m : Mesh) (f : Nat) : Option (List Nat) :=
  (m.faces.find? (fun p => p.1 == f)).map (fun p => p.2)

/-- Modelled from the spec: `number_of_faces()`. -/
def numberOfFaces (m : Mesh) : Nat :=
  m.faces.length

/-- Modelled from the spec: `face_vertex_descendant(face_id, vertex_id)`, the
vertex immediately following `u` in the face's cyclic order; `NotFoundError`
when `u` is not on the face (or the face is missing). -/
def faceVertexDescendant (m : Mesh) (f u : Nat) : Except MErr Nat :=
  match lookupFace m f with
  | none => .error .notFound
  | some vs =>
    if vs.contains u then .ok (vs.getD ((vs.indexOf u + 1) % vs.length) 0)
    else .error .notFound

/-- The first position `i` with `vs[i] = u` immediately followed (cyclically)
by `v`, if any. -/
def findDirectedEdge (vs : List Nat) (u v : Nat) : Option Nat :=
  (List.range vs.length).find?
    (fun i => vs.getD i 0 == u && vs.getD ((i + 1) % vs.length) 0 == v)

/-- Whether `u` and `v` appear cyclically consecutive (in either order) in the
sequence `vs`, i.e. whether the unordered edge `(u,v)` is a boundary edge of
the face with vertex sequence `vs`. -/
def hasEdgeB (vs : List Nat) (u v : Nat) : Bool :=
  (findDirectedEdge vs u v).isSome || (findDirectedEdge vs v u).isSome

/-- The sequence `vs` with `w` inserted immediately after position `i`. -/
def spliceAt (vs : List Nat) (i : Nat) (w : Nat) : List Nat :=
  vs.take (i + 1) ++ w :: vs.drop (i + 1)

/-- Modelled from the spec: splice `w` into the cyclic sequence `vs`
immediately between `u` and `v` (whichever of the directions `u → v`, `v → u`
the sequence contains), preserving winding; sequences without the edge are
returned unchanged. -/
def insertBetween (vs : List Nat) (u v w : Nat) : List Nat :=
  match findDirectedEdge vs u v, findDirectedEdge vs v u with
  | some i, _ => spliceAt vs i w
  | none, some i => spliceAt vs i w
  | none, none => vs

/-- Modelled from the spec: `add_vertex` with an explicit key updates the
existing record, otherwise appends, and keeps the allocation counter at the
maximum key ever used. -/
def addVertex (m : Mesh) (k : Nat) (pt : Point) : Mesh :=
  { m with
    vertices :=
      if m.vertices.any (fun p => p.1 == k) then
        m.vertices.map (fun p => if p.1 == k then (k, pt) else p)
      else
        m.vertices ++ [(k, pt)]
    maxVertex := max m.maxVertex k }

/-- The identifier the store allocates for a fresh vertex. -/
def freshVertexKey (m : Mesh) : Nat :=
  m.maxVertex + 1

/-- The midpoint of the coordinates of vertices `u` and `v`. -/
def midpoint (m : Mesh) (u v : Nat) : Point :=
  ((( (vertexPoint m u).1 + (vertexPoint m v).1) / 2),
   (( (vertexPoint m u).2.1 + (vertexPoint m v).2.1) / 2),
   (( (vertexPoint m u).2.2 + (vertexPoint m v).2.2) / 2))

/-- The faces (with their vertex sequences) incident to the edge `(u,v)`. -/
def incidentPairs (m : Mesh) (u v : Nat) : List (Nat × List Nat) :=
  m.faces.filter (fun p => hasEdgeB p.2 u v)

/-- Modelled from the spec: `insert_vertex_on_edge(mesh, u, v, vkey)`.
Validation first (`NotFoundError` when `u` or `v` is not a vertex or `(u,v)`
is not an edge of any face); then the new vertex — the explicit key, or a
freshly allocated one — is added at the midpoint of `u` and `v` and spliced
into every incident face between `u` and `v`.  Returns the post-state and the
new vertex's identifier. -/
def insertVertexOnEdge (m : Mesh) (u v : Nat) (vkey : Option Nat) :
    Mesh × Except MErr Nat :=
  if hasVertexB m u && hasVertexB m v then
    if incidentPairs m u v = [] then (m, .error .notFound)
    else
      let w := vkey.getD (freshVertexKey m)
      let m₁ := addVertex m w (midpoint m u v)
      ({ m₁ with faces := m₁.faces.map (fun p => (p.1, insertBetween p.2 u v w)) },
       .ok w)
  else (m, .error .notFound)

/-- The faces targeted by `substitute_vertex_in_faces`: the explicit list, or,
when omitted, every face currently containing `old`. -/
def substTargets (m : Mesh) (old : Nat) (fcs : Option (List Nat)) : List Nat :=
  match fcs with
  | some l => l
  | none => (m.faces.filter (fun p => p.2.contains old)).map (fun p => p.1)

/-- Modelled from the spec: `substitute_vertex_in_faces(mesh, old, new,
faces)`.  `NotFoundError` when `new` is not an existing vertex; otherwise each
targeted face's sequence has every occurrence of `old` replaced by `new` in
place (no degeneracy check). -/
def substituteVertexInFaces (m : Mesh) (old nw : Nat) (fcs : Option (List Nat)) :
    Mesh × Except MErr Unit :=
  if hasVertexB m nw then
    let ts := substTargets m old fcs
    ({ m with
       faces := m.faces.map (fun p =>
         (p.1, if p.1 ∈ ts then p.2.map (fun x => if x = old then nw else x)
               else p.2)) },
     .ok ())
  else (m, .error .notFound)

/-- The contiguous run of the cyclic sequence `vs` from (the first position
of) `u` up to (the first position of) `v`, both included. -/
def splitRunA (vs : List Nat) (u v : Nat) : List Nat :=
  let i := vs.indexOf u
  let j := vs.indexOf v
  if i < j then (vs.drop i).take (j - i + 1)
  else vs.drop i ++ vs.take (j + 1)

/-- The complementary contiguous run of the cyclic sequence `vs` from `v` up
to `u`, both included. -/
def splitRunB (vs : List Nat) (u v : Nat) : List Nat :=
  let i := vs.indexOf u
  let j := vs.indexOf v
  if i < j then vs.drop j ++ vs.take (i + 1)
  else (vs.drop j).take (i - j + 1)

/-- Modelled from the spec: `split_face(mesh, fkey, u, v)`.  `NotFoundError`
when the face is missing; `ValueError` when `u` or `v` is not on the face or
the two are identical or cyclically adjacent; otherwise the cyclic sequence is
partitioned at `u` and `v` into the run `u..v` and the run `v..u`, the
original face is deleted and the two runs become faces under fresh keys. -/
def splitFace (m : Mesh) (f u v : Nat) : Mesh × Except MErr (Nat × Nat) :=
  match lookupFace m f with
  | none => (m, .error .notFound)
  | some vs =>
    if vs.contains u && vs.contains v then
      if u == v || hasEdgeB vs u v then (m, .error .valueError)
      else
        ({ m with
           faces := (m.faces.eraseP (fun p => p.1 == f)) ++
             [(m.maxFace + 1, splitRunA vs u v), (m.maxFace + 2, splitRunB vs u v)],
           maxFace := m.maxFace + 2 },
         .ok (m.maxFace + 1, m.maxFace + 2))
    else (m, .error .valueError)

/-- The concrete test mesh `mesh_0`. -/
def mesh0 : Mesh :=
  fromVerticesAndFaces
    [(1, 0, 0), (1, 2, 0), (0, 1, 0), (2, 1, 0), (0, 0, 0)]
    [[0, 1, 2], [0, 3, 1]]

/-- The concrete test mesh `mesh_quads`. -/
def meshQuads : Mesh :=
  fromVerticesAndFaces
    [(0, 0, 0), (1, 0, 0), (1, 1, 0), (0, 1, 0), (2, 0, 0), (2, 1, 0)]
    [[0, 1, 2, 3], [1, 4, 5, 2]]

/-- `a`, `b`, `c` occur at three cyclically consecutive positions of `vs`. -/
def CyclicTriple (vs : List Nat) (a b c : Nat) : Prop :=
  ∃ i, i < vs.length ∧ vs.getD i 0 = a ∧
    vs.getD ((i + 1) % vs.length) 0 = b ∧ vs.getD ((i + 2) % vs.length) 0 = c

theorem findDirectedEdge_some {vs : List Nat} {u v i : Nat}
    (h : findDirectedEdge vs u v = some i) :
    i < vs.length ∧ vs.getD i 0 = u ∧ vs.getD ((i + 1) % vs.length) 0 = v := by
  have hmem := List.mem_of_find?_eq_some h
  have hp := List.find?_some h
  simp only [List.mem_range] at hmem
  simp only [Bool.and_eq_true, beq_iff_eq] at hp
  exact ⟨hmem, hp.1, hp.2⟩

theorem findDirectedEdge_eq_none {vs : List Nat} {u v : Nat}
    (h : findDirectedEdge vs u v = none) :
    ∀ i < vs.length, ¬ (vs.getD i 0 = u ∧ vs.getD ((i + 1) % vs.length) 0 = v) := by
  intro i hi hc
  have := List.find?_eq_none.1 h i (List.mem_range.2 hi)
  simp only [Bool.and_eq_true, beq_iff_eq] at this
  exact this ⟨hc.1, hc.2⟩

theorem length_spliceAt {vs : List Nat} {i : Nat} (h : i < vs.length) (w : Nat) :
    (spliceAt vs i w).length = vs.length + 1 := by
  simp only [spliceAt, List.length_append, List.length_take, List.length_cons,
    List.length_drop]
  omega

theorem spliceAt_triple {vs : List Nat} {i a b : Nat} (hi : i < vs.length)
    (ha : vs.getD i 0 = a) (hb : vs.getD ((i + 1) % vs.length) 0 = b) (w : Nat) :
    CyclicTriple (spliceAt vs i w) a w b := by
  have hlen : (spliceAt vs i w).length = vs.length + 1 := length_spliceAt hi w
  have htk : (vs.take (i + 1)).length = i + 1 := by
    simp only [List.length_take]; omega
  refine ⟨i, ?_, ?_, ?_, ?_⟩
  · omega
  · rw [spliceAt, List.getD_append _ _ _ _ (by omega)]
    rw [List.getD_eq_getElem _ _ (by omega), List.getElem_take]
    rw [List.getD_eq_getElem _ _ hi] at ha
    exact ha
  · rw [hlen, Nat.mod_eq_of_lt (by omega), spliceAt,
      List.getD_append_right _ _ _ _ (by omega)]
    have h0 : i + 1 - (vs.take (i + 1)).length = 0 := by omega
    rw [h0]
    rfl
  · rw [hlen]
    rcases Nat.lt_or_ge (i + 1) vs.length with hlt | hge
    · rw [Nat.mod_eq_of_lt (by omega), spliceAt,
        List.getD_append_right _ _ _ _ (by omega)]
      have : i + 2 - (vs.take (i + 1)).length = 1 := by omega
      rw [this]
      rw [Nat.mod_eq_of_lt hlt] at hb
      simp only [List.getD_cons_succ]
      rw [List.getD_eq_getElem _ _ (by simp; omega), List.getElem_drop,
        ← List.getD_eq_getElem _ _ (by omega)]
      exact hb
    · have hieq : i + 1 = vs.length := by omega
      have : (i + 2) % (vs.length + 1) = 0 := by
        rw [← hieq]; simp [Nat.mod_self]
      rw [this, spliceAt, List.getD_append _ _ _ _ (by omega)]
      rw [hieq, Nat.mod_self] at hb
      rw [List.getD_eq_getElem _ _ (by omega), List.getElem_take,
        ← List.getD_eq_getElem _ _ (by omega)]
      exact hb

theorem insertBetween_edge {vs : List Nat} {u v : Nat} (w : Nat)
    (h : hasEdgeB vs u v = true) :
    (insertBetween vs u v w).length = vs.length + 1 ∧
      (CyclicTriple (insertBetween vs u v w) u w v ∨
       CyclicTriple (insertBetween vs u v w) v w u) := by
  unfold insertBetween
  cases hf : findDirectedEdge vs u v with
  | some i =>
    obtain ⟨hi, ha, hb⟩ := findDirectedEdge_some hf
    exact ⟨length_spliceAt hi w, .inl (spliceAt_triple hi ha hb w)⟩
  | none =>
    cases hg : findDirectedEdge vs v u with
    | some i =>
      obtain ⟨hi, ha, hb⟩ := findDirectedEdge_some hg
      exact ⟨length_spliceAt hi w, .inr (spliceAt_triple hi ha hb w)⟩
    | none =>
      rw [hasEdgeB, hf, hg] at h
      simp at h

theorem find?_key_map (l : List (Nat × List Nat)) (g : Nat × List Nat → List Nat)
    (f : Nat) :
    (l.map (fun p => (p.1, g p))).find? (fun p => p.1 == f)
      = (l.find? (fun p => p.1 == f)).map (fun p => (p.1, g p)) := by
  rw [List.find?_map]
  rfl

theorem lookupFace_eq_some {m : Mesh} {f : Nat} {vs : List Nat}
    (h : lookupFace m f = some vs) :
    m.faces.find? (fun p => p.1 == f) = some (f, vs) := by
  unfold lookupFace at h
  cases hf : m.faces.find? (fun p => p.1 == f) with
  | none => rw [hf] at h; simp at h
  | some p =>
    have hk : p.1 = f := by
      have := List.find?_some hf
      simpa using this
    rw [hf] at h
    obtain ⟨k, vs'⟩ := p
    simp only at hk
    have h2 : vs' = vs := by simpa using h
    rw [hk, h2]

theorem lookupFace_mapFaces (m : Mesh) (vt : List (Nat × Point)) (mv mf : Nat)
    (g : Nat × List Nat → List Nat) (f : Nat) :
    lookupFace
      { vertices := vt, faces := m.faces.map (fun p => (p.1, g p)),
        maxVertex := mv, maxFace := mf } f
      = (m.faces.find? (fun p => p.1 == f)).map g := by
  unfold lookupFace
  simp only [find?_key_map, Option.map_map]
  rfl

theorem mem_incidentPairs_hasEdge {m : Mesh} {u v : Nat} {p : Nat × List Nat}
    (h : p ∈ incidentPairs m u v) : p ∈ m.faces ∧ hasEdgeB p.2 u v = true := by
  have := List.mem_filter.1 h
  exact ⟨this.1, this.2⟩

/-- Claim C1: for every mesh and every edge `(u,v)` shared by exactly the two
faces `f₁` and `f₂`, `insert_vertex_on_edge(mesh, u, v)` allocates the fresh
identifier, increases both incident faces' vertex counts by exactly one and
splices the new vertex immediately between `u` and `v` in each face's cyclic
sequence. -/
theorem insertVertexOnEdge_shared_edge (m : Mesh) (u v f₁ f₂ : Nat)
    (vs₁ vs₂ : List Nat)
    (hu : hasVertexB m u = true) (hv : hasVertexB m v = true)
    (hinc : incidentPairs m u v = [(f₁, vs₁), (f₂, vs₂)])
    (h₁ : lookupFace m f₁ = some vs₁) (h₂ : lookupFace m f₂ = some vs₂) :
    (insertVertexOnEdge m u v none).2 = .ok (freshVertexKey m) ∧
    lookupFace (insertVertexOnEdge m u v none).1 f₁
      = some (insertBetween vs₁ u v (freshVertexKey m)) ∧
    lookupFace (insertVertexOnEdge m u v none).1 f₂
      = some (insertBetween vs₂ u v (freshVertexKey m)) ∧
    (insertBetween vs₁ u v (freshVertexKey m)).length = vs₁.length + 1 ∧
    (insertBetween vs₂ u v (freshVertexKey m)).length = vs₂.length + 1 ∧
    (CyclicTriple (insertBetween vs₁ u v (freshVertexKey m)) u (freshVertexKey m) v ∨
     CyclicTriple (insertBetween vs₁ u v (freshVertexKey m)) v (freshVertexKey m) u) ∧
    (CyclicTriple (insertBetween vs₂ u v (freshVertexKey m)) u (freshVertexKey m) v ∨
     CyclicTriple (insertBetween vs₂ u v (freshVertexKey m)) v (freshVertexKey m) u) := by
  have he₁ : hasEdgeB vs₁ u v = true := by
    have : (f₁, vs₁) ∈ incidentPairs m u v := by rw [hinc]; simp
    exact (mem_incidentPairs_hasEdge this).2
  have he₂ : hasEdgeB vs₂ u v = true := by
    have : (f₂, vs₂) ∈ incidentPairs m u v := by rw [hinc]; simp
    exact (mem_incidentPairs_hasEdge this).2
  have hne : ¬ incidentPairs m u v = [] := by rw [hinc]; simp
  have hres : insertVertexOnEdge m u v none
      = ({ vertices := (addVertex m (freshVertexKey m) (midpoint m u v)).vertices,
           faces := m.faces.map
             (fun p => (p.1, insertBetween p.2 u v (freshVertexKey m))),
           maxVertex := max m.maxVertex (freshVertexKey m),
           maxFace := m.maxFace }, .ok (freshVertexKey m)) := by
    rw [insertVertexOnEdge, if_pos (by rw [hu, hv]; rfl), if_neg hne]
    rfl
  refine ⟨by rw [hres], ?_, ?_, (insertBetween_edge _ he₁).1,
    (insertBetween_edge _ he₂).1, (insertBetween_edge _ he₁).2,
    (insertBetween_edge _ he₂).2⟩
  · rw [hres]
    rw [lookupFace_mapFaces m _ _ _ (fun p => insertBetween p.2 u v (freshVertexKey m)) f₁,
      lookupFace_eq_some h₁]
    rfl
  · rw [hres]
    rw [lookupFace_mapFaces m _ _ _ (fun p => insertBetween p.2 u v (freshVertexKey m)) f₂,
      lookupFace_eq_some h₂]
    rfl

/-- Claim C1, concrete witness: on `mesh_0`, inserting on the edge `(0,1)`
gives both faces four vertices, descendant `5` of vertex `0` in face `0` and
of vertex `1` in face `1`, and the fresh identifier is `5`. -/
theorem insertVertexOnEdge_shared_edge_witness :
    (hasVertexB mesh0 0 = true ∧ hasVertexB mesh0 1 = true ∧
     incidentPairs mesh0 0 1 = [(0, [0, 1, 2]), (1, [0, 3, 1])] ∧
     lookupFace mesh0 0 = some [0, 1, 2] ∧ lookupFace mesh0 1 = some [0, 3, 1]) ∧
    ((insertVertexOnEdge mesh0 0 1 none).2 = .ok (freshVertexKey mesh0) ∧
     lookupFace (insertVertexOnEdge mesh0 0 1 none).1 0
       = some (insertBetween [0, 1, 2] 0 1 (freshVertexKey mesh0)) ∧
     lookupFace (insertVertexOnEdge mesh0 0 1 none).1 1
       = some (insertBetween [0, 3, 1] 0 1 (freshVertexKey mesh0)) ∧
     (insertBetween [0, 1, 2] 0 1 (freshVertexKey mesh0)).length = 3 + 1 ∧
     (insertBetween [0, 3, 1] 0 1 (freshVertexKey mesh0)).length = 3 + 1 ∧
     (CyclicTriple (insertBetween [0, 1, 2] 0 1 (freshVertexKey mesh0)) 0
        (freshVertexKey mesh0) 1 ∨
      CyclicTriple (insertBetween [0, 1, 2] 0 1 (freshVertexKey mesh0)) 1
        (freshVertexKey mesh0) 0) ∧
     (CyclicTriple (insertBetween [0, 3, 1] 0 1 (freshVertexKey mesh0)) 0
        (freshVertexKey mesh0) 1 ∨
      CyclicTriple (insertBetween [0, 3, 1] 0 1 (freshVertexKey mesh0)) 1
        (freshVertexKey mesh0) 0)) ∧
    (freshVertexKey mesh0 = 5 ∧
     (lookupFace (insertVertexOnEdge mesh0 0 1 none).1 0).map List.length = some 4 ∧
     (lookupFace (insertVertexOnEdge mesh0 0 1 none).1 1).map List.length = some 4 ∧
     faceVertexDescendant (insertVertexOnEdge mesh0 0 1 none).1 0 0 = .ok 5 ∧
     faceVertexDescendant (insertVertexOnEdge mesh0 0 1 none).1 1 1 = .ok 5) :=
  ⟨⟨by decide, by decide, by decide, by decide, by decide⟩,
   insertVertexOnEdge_shared_edge mesh0 0 1 0 1 [0, 1, 2] [0, 3, 1]
     (by decide) (by decide) (by decide) (by decide) (by decide),
   by decide, by decide, by decide, by decide, by decide⟩

theorem insertBetween_no_edge {vs : List Nat} {u v : Nat} (w : Nat)
    (h : hasEdgeB vs u v = false) : insertBetween vs u v w = vs := by
  unfold insertBetween
  cases hf : findDirectedEdge vs u v with
  | some i => rw [hasEdgeB, hf] at h; simp at h
  | none =>
    cases hg : findDirectedEdge vs v u with
    | some i => rw [hasEdgeB, hf, hg] at h; simp at h
    | none => rfl

/-- Claim C7: for every mesh and every edge `(u,v)` appearing in exactly the
one face `f₁`, `insert_vertex_on_edge` with an explicit identifier `k` uses
`k` as the inserted vertex, increases that face's vertex count by one and
splices `k` between `u` and `v`, and leaves every other face unchanged. -/
theorem insertVertexOnEdge_single_edge (m : Mesh) (u v f₁ k : Nat)
    (vs₁ : List Nat)
    (hu : hasVertexB m u = true) (hv : hasVertexB m v = true)
    (hinc : incidentPairs m u v = [(f₁, vs₁)])
    (h₁ : lookupFace m f₁ = some vs₁) :
    (insertVertexOnEdge m u v (some k)).2 = .ok k ∧
    lookupFace (insertVertexOnEdge m u v (some k)).1 f₁
      = some (insertBetween vs₁ u v k) ∧
    (insertBetween vs₁ u v k).length = vs₁.length + 1 ∧
    (CyclicTriple (insertBetween vs₁ u v k) u k v ∨
     CyclicTriple (insertBetween vs₁ u v k) v k u) ∧
    ∀ g, g ≠ f₁ →
      lookupFace (insertVertexOnEdge m u v (some k)).1 g = lookupFace m g := by
  have he₁ : hasEdgeB vs₁ u v = true := by
    have : (f₁, vs₁) ∈ incidentPairs m u v := by rw [hinc]; simp
    exact (mem_incidentPairs_hasEdge this).2
  have hne : ¬ incidentPairs m u v = [] := by rw [hinc]; simp
  have hres : insertVertexOnEdge m u v (some k)
      = ({ vertices := (addVertex m k (midpoint m u v)).vertices,
           faces := m.faces.map (fun p => (p.1, insertBetween p.2 u v k)),
           maxVertex := max m.maxVertex k,
           maxFace := m.maxFace }, .ok k) := by
    rw [insertVertexOnEdge, if_pos (by rw [hu, hv]; rfl), if_neg hne]
    rfl
  refine ⟨by rw [hres], ?_, (insertBetween_edge _ he₁).1,
    (insertBetween_edge _ he₁).2, ?_⟩
  · rw [hres]
    rw [lookupFace_mapFaces m _ _ _ (fun p => insertBetween p.2 u v k) f₁,
      lookupFace_eq_some h₁]
    rfl
  · intro g hg
    rw [hres]
    rw [lookupFace_mapFaces m _ _ _ (fun p => insertBetween p.2 u v k) g]
    cases hfg : m.faces.find? (fun p => p.1 == g) with
    | none => rw [lookupFace, hfg]; rfl
    | some p =>
      have hpk : p.1 = g := by
        have := List.find?_some hfg
        simpa using this
      have hmem : p ∈ m.faces := List.mem_of_find?_eq_some hfg
      have hnoe : hasEdgeB p.2 u v = false := by
        by_contra hc
        have hc' : hasEdgeB p.2 u v = true := by
          cases h : hasEdgeB p.2 u v
          · exact absurd h hc
          · rfl
        have : p ∈ incidentPairs m u v := List.mem_filter.2 ⟨hmem, hc'⟩
        rw [hinc] at this
        simp only [List.mem_singleton] at this
        exact hg (by rw [← hpk, this])
      rw [lookupFace, hfg]
      simp only [Option.map_some']
      rw [insertBetween_no_edge _ hnoe]

/-- Claim C7, concrete witness: on `mesh_0` after the scenario-A insertion,
inserting on the single-face edge `(0,2)` with explicit identifier `4` gives
face `0` five vertices with descendant `4` of vertex `2`, and leaves face `1`
unchanged. -/
theorem insertVertexOnEdge_single_edge_witness :
    (hasVertexB (insertVertexOnEdge mesh0 0 1 none).1 0 = true ∧
     hasVertexB (insertVertexOnEdge mesh0 0 1 none).1 2 = true ∧
     incidentPairs (insertVertexOnEdge mesh0 0 1 none).1 0 2
       = [(0, [0, 5, 1, 2])] ∧
     lookupFace (insertVertexOnEdge mesh0 0 1 none).1 0 = some [0, 5, 1, 2]) ∧
    ((insertVertexOnEdge (insertVertexOnEdge mesh0 0 1 none).1 0 2 (some 4)).2
       = .ok 4 ∧
     lookupFace (insertVertexOnEdge (insertVertexOnEdge mesh0 0 1 none).1 0 2
         (some 4)).1 0 = some (insertBetween [0, 5, 1, 2] 0 2 4) ∧
     (insertBetween [0, 5, 1, 2] 0 2 4).length = [0, 5, 1, 2].length + 1 ∧
     (CyclicTriple (insertBetween [0, 5, 1, 2] 0 2 4) 0 4 2 ∨
      CyclicTriple (insertBetween [0, 5, 1, 2] 0 2 4) 2 4 0) ∧
     ∀ g, g ≠ 0 →
       lookupFace (insertVertexOnEdge (insertVertexOnEdge mesh0 0 1 none).1 0 2
           (some 4)).1 g
         = lookupFace (insertVertexOnEdge mesh0 0 1 none).1 g) ∧
    ((lookupFace (insertVertexOnEdge (insertVertexOnEdge mesh0 0 1 none).1 0 2
        (some 4)).1 0).map List.length = some 5 ∧
     faceVertexDescendant (insertVertexOnEdge (insertVertexOnEdge mesh0 0 1
        none).1 0 2 (some 4)).1 0 2 = .ok 4) :=
  ⟨⟨by decide, by decide, by decide, by decide⟩,
   insertVertexOnEdge_single_edge (insertVertexOnEdge mesh0 0 1 none).1 0 2 0 4
     [0, 5, 1, 2] (by decide) (by decide) (by decide) (by decide),
   by decide, by decide⟩

/-- An edit operation of the mesh store, for statements quantifying over all
three operations at once. -/
inductive EditOp where
  | insert (u v : Nat) (vkey : Option Nat)
  | subst (old nw : Nat) (fcs : Option (List Nat))
  | split (f u v : Nat)

/-- Run an edit operation, discarding its (operation-specific) result value
but keeping the post-state and the error outcome. -/
def runEdit (m : Mesh) : EditOp → Mesh × Except MErr Unit
  | .insert u v vkey =>
    ((insertVertexOnEdge m u v vkey).1,
     (insertVertexOnEdge m u v vkey).2.map (fun _ => ()))
  | .subst old nw fcs => substituteVertexInFaces m old nw fcs
  | .split f u v =>
    ((splitFace m f u v).1, (splitFace m f u v).2.map (fun _ => ()))

/-- Claim C8: every edit operation validates its preconditions before
mutating, so whenever a call errors the mesh store is left completely
unchanged. -/
theorem editOp_error_leaves_mesh_unchanged (m : Mesh) (op : EditOp) (e : MErr)
    (h : (runEdit m op).2 = .error e) : (runEdit m op).1 = m := by
  cases op with
  | insert u v vkey =>
    simp only [runEdit] at h ⊢
    by_cases h1 : (hasVertexB m u && hasVertexB m v) = true
    · by_cases h2 : incidentPairs m u v = []
      · rw [insertVertexOnEdge, if_pos h1, if_pos h2]
      · rw [insertVertexOnEdge, if_pos h1, if_neg h2] at h
        exact absurd h (by simp [Except.map])
    · rw [insertVertexOnEdge, if_neg h1]
  | subst old nw fcs =>
    simp only [runEdit] at h ⊢
    by_cases h1 : hasVertexB m nw = true
    · rw [substituteVertexInFaces, if_pos h1] at h
      simp at h
    · rw [substituteVertexInFaces, if_neg h1]
  | split f u v =>
    simp only [runEdit] at h ⊢
    cases hf : lookupFace m f with
    | none => simp only [splitFace, hf]
    | some vs =>
      by_cases h1 : (vs.contains u && vs.contains v) = true
      · by_cases h2 : (u == v || hasEdgeB vs u v) = true
        · simp only [splitFace, hf]
          rw [if_pos h1, if_pos h2]
        · simp only [splitFace, hf] at h
          rw [if_pos h1, if_neg h2] at h
          exact absurd h (by simp [Except.map])
      · simp only [splitFace, hf]
        rw [if_neg h1]

/-- Claim C8, concrete witness: a failing `split_face` call (adjacent split
vertices on `mesh_quads`) leaves the mesh unchanged. -/
theorem editOp_error_leaves_mesh_unchanged_witness :
    (runEdit meshQuads (.split 0 0 1)).2 = .error .valueError ∧
    (runEdit meshQuads (.split 0 0 1)).1 = meshQuads :=
  ⟨by decide,
   editOp_error_leaves_mesh_unchanged meshQuads (.split 0 0 1) .valueError
     (by decide)⟩

/-- Validity of a mesh (the data model of §3): face keys are unique and
within the allocation counter, vertex keys are within the counter, and every
face has at least three pairwise distinct vertices, all existing. -/
def MeshValid (m : Mesh) : Prop :=
  (m.faces.map Prod.fst).Nodup ∧
  (∀ p ∈ m.faces, p.1 ≤ m.maxFace) ∧
  (∀ p ∈ m.vertices, p.1 ≤ m.maxVertex) ∧
  (∀ p ∈ m.faces, 3 ≤ p.2.length ∧ p.2.Nodup ∧ ∀ x ∈ p.2, hasVertexB m x = true)

instance meshValidDecidable (m : Mesh) : Decidable (MeshValid m) := by
  unfold MeshValid
  infer_instance

theorem eraseP_key_not_mem {l : List (Nat × List Nat)} {f : Nat}
    (hn : (l.map Prod.fst).Nodup)
    (hs : (l.find? (fun p => p.1 == f)).isSome = true) :
    ∀ q ∈ l.eraseP (fun p => p.1 == f), (q.1 == f) = false := by
  induction l with
  | nil => simp at hs
  | cons p t ih =>
    by_cases hp : (p.1 == f) = true
    · simp only [List.eraseP_cons, hp, cond_true]
      intro q hq
      have hqf : q.1 ∈ t.map Prod.fst := List.mem_map_of_mem Prod.fst hq
      by_contra hc
      have hq1 : q.1 = f := by
        cases h : (q.1 == f)
        · exact absurd h hc
        · exact eq_of_beq h
      have hp1 : p.1 = f := eq_of_beq hp
      have : p.1 ∉ t.map Prod.fst := (List.nodup_cons.1 (by simpa using hn)).1
      exact this (by rw [hp1, ← hq1]; exact hqf)
    · have hp' : (p.1 == f) = false := by
        cases h : (p.1 == f)
        · rfl
        · exact absurd h hp
      simp only [List.eraseP_cons, hp', cond_false]
      intro q hq
      rcases List.mem_cons.1 hq with rfl | hq'
      · cases h : (q.1 == f)
        · rfl
        · exact absurd h hp
      · have hs' : (t.find? (fun p => p.1 == f)).isSome = true := by
          simpa [List.find?, hp'] using hs
        exact ih (List.nodup_cons.1 (by simpa using hn)).2 hs' q hq'

theorem splitFace_ok (m : Mesh) (f u v : Nat) (vs : List Nat)
    (hf : lookupFace m f = some vs)
    (h1 : (vs.contains u && vs.contains v) = true)
    (h2 : (u == v || hasEdgeB vs u v) = false) :
    splitFace m f u v =
      ({ vertices := m.vertices,
         faces := m.faces.eraseP (fun p => p.1 == f) ++
           [(m.maxFace + 1, splitRunA vs u v), (m.maxFace + 2, splitRunB vs u v)],
         maxVertex := m.maxVertex, maxFace := m.maxFace + 2 },
       .ok (m.maxFace + 1, m.maxFace + 2)) := by
  simp only [splitFace, hf]
  rw [if_pos h1, if_neg (by rw [h2]; exact Bool.false_ne_true)]

/-- Claim C3: given that the face exists, `split_face(mesh, face_id, u, v)`
raises `ValueError` exactly when `u` or `v` is not a vertex of the face or
when `u` and `v` are cyclically adjacent in it (including `u = v`), and
otherwise raises nothing. -/
theorem splitFace_valueError_iff (m : Mesh) (f u v : Nat) (vs : List Nat)
    (hf : lookupFace m f = some vs) :
    ((splitFace m f u v).2 = .error .valueError ↔
      (u ∉ vs ∨ v ∉ vs ∨ u = v ∨ hasEdgeB vs u v = true)) ∧
    ((u ∈ vs ∧ v ∈ vs ∧ u ≠ v ∧ hasEdgeB vs u v = false) →
      ∃ a b, (splitFace m f u v).2 = .ok (a, b)) := by
  by_cases h1 : (vs.contains u && vs.contains v) = true
  · have hmem : u ∈ vs ∧ v ∈ vs := by
      have := Bool.and_eq_true_iff.1 h1
      exact ⟨List.elem_iff.1 this.1, List.elem_iff.1 this.2⟩
    by_cases h2 : (u == v || hasEdgeB vs u v) = true
    · have hres : (splitFace m f u v).2 = .error .valueError := by
        simp only [splitFace, hf]
        rw [if_pos h1, if_pos h2]
      refine ⟨⟨fun _ => ?_, fun _ => hres⟩, fun hc => ?_⟩
      · rcases Bool.or_eq_true_iff.1 h2 with h | h
        · exact .inr (.inr (.inl (eq_of_beq h)))
        · exact .inr (.inr (.inr h))
      · exfalso
        rcases Bool.or_eq_true_iff.1 h2 with h | h
        · exact hc.2.2.1 (eq_of_beq h)
        · rw [hc.2.2.2] at h
          exact Bool.false_ne_true h
    · have h2' : (u == v || hasEdgeB vs u v) = false := by
        cases h : (u == v || hasEdgeB vs u v)
        · rfl
        · exact absurd h h2
      have hres := splitFace_ok m f u v vs hf h1 h2'
      refine ⟨⟨fun hc => ?_, fun hc => ?_⟩, fun _ => ?_⟩
      · rw [hres] at hc
        simp at hc
      · exfalso
        rcases hc with h | h | h | h
        · exact h hmem.1
        · exact h hmem.2
        · rw [Bool.or_eq_false_iff] at h2'
          exact (by simpa using h2'.1 : u ≠ v) h
        · rw [Bool.or_eq_false_iff] at h2'
          rw [h2'.2] at h
          exact Bool.false_ne_true h
      · exact ⟨m.maxFace + 1, m.maxFace + 2, by rw [hres]⟩
  · have hres : (splitFace m f u v).2 = .error .valueError := by
      simp only [splitFace, hf]
      rw [if_neg h1]
    refine ⟨⟨fun _ => ?_, fun _ => hres⟩, fun hc => ?_⟩
    · rw [Bool.and_eq_true_iff] at h1
      by_cases hu : u ∈ vs
      · refine .inr (.inl fun hv => h1 ⟨?_, ?_⟩)
        · exact List.elem_iff.2 hu
        · exact List.elem_iff.2 hv
      · exact .inl hu
    · exact absurd (Bool.and_eq_true_iff.2
        ⟨List.elem_iff.2 hc.1, List.elem_iff.2 hc.2.1⟩) h1

/-- Claim C3, concrete witness: on `mesh_quads`, `split_face(0, 0, 4)` (vertex
4 not on face 0) and `split_face(0, 0, 1)` (adjacent vertices) both raise
`ValueError`. -/
theorem splitFace_valueError_iff_witness :
    lookupFace meshQuads 0 = some [0, 1, 2, 3] ∧
    (((splitFace meshQuads 0 0 4).2 = .error .valueError ↔
        ((0 : Nat) ∉ [0, 1, 2, 3] ∨ (4 : Nat) ∉ [0, 1, 2, 3] ∨ (0 : Nat) = 4 ∨
         hasEdgeB [0, 1, 2, 3] 0 4 = true)) ∧
     (((0 : Nat) ∈ [0, 1, 2, 3] ∧ (4 : Nat) ∈ [0, 1, 2, 3] ∧ (0 : Nat) ≠ 4 ∧
        hasEdgeB [0, 1, 2, 3] 0 4 = false) →
       ∃ a b, (splitFace meshQuads 0 0 4).2 = .ok (a, b))) ∧
    ((splitFace meshQuads 0 0 4).2 = .error .valueError ∧
     (splitFace meshQuads 0 0 1).2 = .error .valueError) :=
  ⟨by decide,
   splitFace_valueError_iff meshQuads 0 0 4 [0, 1, 2, 3] (by decide),
   by decide, by decide⟩

/-- Claim C2: for every valid mesh, face `f` with at least four vertices and
non-adjacent distinct vertices `u`, `v` on `f`, `split_face(mesh, f, u, v)`
succeeds, increases `number_of_faces()` by exactly one and removes face `f`. -/
theorem splitFace_count (m : Mesh) (f u v : Nat) (vs : List Nat)
    (hm : MeshValid m) (hf : lookupFace m f = some vs) (hlen : 4 ≤ vs.length)
    (hu : u ∈ vs) (hv : v ∈ vs) (huv : u ≠ v) (hadj : hasEdgeB vs u v = false) :
    ∃ m' a b, splitFace m f u v = (m', .ok (a, b)) ∧
      numberOfFaces m' = numberOfFaces m + 1 ∧ lookupFace m' f = none := by
  have h1 : (vs.contains u && vs.contains v) = true :=
    Bool.and_eq_true_iff.2 ⟨List.elem_iff.2 hu, List.elem_iff.2 hv⟩
  have h2 : (u == v || hasEdgeB vs u v) = false := by
    rw [Bool.or_eq_false_iff]
    exact ⟨beq_eq_false_iff_ne.2 huv, hadj⟩
  have hres := splitFace_ok m f u v vs hf h1 h2
  have hfindsome := lookupFace_eq_some hf
  have hmemf : (f, vs) ∈ m.faces := List.mem_of_find?_eq_some hfindsome
  have hflen : 1 ≤ m.faces.length :=
    List.length_pos.2 (List.ne_nil_of_mem hmemf)
  have herase : (m.faces.eraseP (fun p => p.1 == f)).length
      = m.faces.length - 1 :=
    List.length_eraseP_of_mem hmemf (by simp)
  refine ⟨_, _, _, hres, ?_, ?_⟩
  · simp only [numberOfFaces, List.length_append, herase, List.length_cons,
      List.length_nil]
    omega
  · simp only [lookupFace, List.find?_append]
    have hnone : (m.faces.eraseP (fun p => p.1 == f)).find?
        (fun p => p.1 == f) = none := by
      rw [List.find?_eq_none]
      intro q hq
      rw [eraseP_key_not_mem hm.1 (by rw [hfindsome]; rfl) q hq]
      exact Bool.false_ne_true
    have hfle : f ≤ m.maxFace := hm.2.1 (f, vs) hmemf
    have hk1 : ((m.maxFace + 1 : Nat) == f) = false := by
      rw [beq_eq_false_iff_ne]
      omega
    have hk2 : ((m.maxFace + 2 : Nat) == f) = false := by
      rw [beq_eq_false_iff_ne]
      omega
    rw [hnone]
    simp only [Option.none_or]
    rw [List.find?_cons_of_neg _ (by rw [hk1]; exact Bool.false_ne_true),
      List.find?_cons_of_neg _ (by rw [hk2]; exact Bool.false_ne_true)]
    rfl

/-- Claim C2, concrete witness: on the quad mesh, `split_face(0, 0, 2)` yields
three faces in total and removes face `0`. -/
theorem splitFace_count_witness :
    (MeshValid meshQuads ∧ lookupFace meshQuads 0 = some [0, 1, 2, 3] ∧
     4 ≤ [0, 1, 2, 3].length ∧ (0 : Nat) ∈ [0, 1, 2, 3] ∧
     (2 : Nat) ∈ [0, 1, 2, 3] ∧ (0 : Nat) ≠ 2 ∧
     hasEdgeB [0, 1, 2, 3] 0 2 = false) ∧
    (∃ m' a b, splitFace meshQuads 0 0 2 = (m', .ok (a, b)) ∧
      numberOfFaces m' = numberOfFaces meshQuads + 1 ∧
      lookupFace m' 0 = none) ∧
    numberOfFaces (splitFace meshQuads 0 0 2).1 = 3 :=
  ⟨⟨by decide, by decide, by decide, by decide, by decide, by decide, by decide⟩,
   splitFace_count meshQuads 0 0 2 [0, 1, 2, 3] (by decide) (by decide)
     (by decide) (by decide) (by decide) (by decide) (by decide),
   by decide⟩

theorem mem_key_unique {l : List (Nat × List Nat)}
    (hn : (l.map Prod.fst).Nodup) {p q : Nat × List Nat}
    (hp : p ∈ l) (hq : q ∈ l) (hk : p.1 = q.1) : p = q := by
  induction l with
  | nil => simp at hp
  | cons a t ih =>
    have hmc : (a.1 :: t.map Prod.fst).Nodup := by
      rw [List.map_cons] at hn
      exact hn
    have hn' := List.nodup_cons.1 hmc
    rcases List.mem_cons.1 hp with rfl | hp'
    · rcases List.mem_cons.1 hq with rfl | hq'
      · rfl
      · exact absurd (hk ▸ List.mem_map_of_mem Prod.fst hq') hn'.1
    · rcases List.mem_cons.1 hq with rfl | hq'
      · exact absurd (hk ▸ List.mem_map_of_mem Prod.fst hp') hn'.1
      · exact ih hn'.2 hp' hq'

theorem substituteVertexInFaces_ok (m : Mesh) (old nw : Nat)
    (fcs : Option (List Nat)) (hnw : hasVertexB m nw = true) :
    substituteVertexInFaces m old nw fcs =
      ({ vertices := m.vertices,
         faces := m.faces.map (fun p =>
           (p.1, if p.1 ∈ substTargets m old fcs then
                   p.2.map (fun x => if x = old then nw else x)
                 else p.2)),
         maxVertex := m.maxVertex, maxFace := m.maxFace },
       .ok ()) := by
  rw [substituteVertexInFaces, if_pos hnw]

/-- Claim C5 (amended with `old ≠ new`): `substitute_vertex_in_faces` succeeds
whenever `new` exists, replaces every occurrence of `old` with `new`
entry-by-entry (preserving position, hence winding) in each targeted face,
leaves untargeted faces and faces not containing `old` untouched, targets
every face containing `old` when the faces argument is omitted, and leaves
`new` present and `old` absent in every targeted face that contained `old`. -/
theorem substituteVertexInFaces_spec (m : Mesh) (old nw : Nat)
    (fcs : Option (List Nat)) (hnw : hasVertexB m nw = true) (hne : old ≠ nw) :
    (substituteVertexInFaces m old nw fcs).2 = .ok () ∧
    (∀ f vs, lookupFace m f = some vs →
      (f ∈ substTargets m old fcs →
        lookupFace (substituteVertexInFaces m old nw fcs).1 f
          = some (vs.map (fun x => if x = old then nw else x)) ∧
        (vs.map (fun x => if x = old then nw else x)).length = vs.length ∧
        (∀ k, (vs.map (fun x => if x = old then nw else x)).getD k nw
          = if vs.getD k old = old then nw else vs.getD k old) ∧
        (old ∈ vs →
          old ∉ vs.map (fun x => if x = old then nw else x) ∧
          nw ∈ vs.map (fun x => if x = old then nw else x))) ∧
      ((f ∉ substTargets m old fcs ∨ old ∉ vs) →
        lookupFace (substituteVertexInFaces m old nw fcs).1 f = some vs)) ∧
    (fcs = none → ∀ f vs, lookupFace m f = some vs → old ∈ vs →
      f ∈ substTargets m old fcs) := by
  have hres := substituteVertexInFaces_ok m old nw fcs hnw
  refine ⟨by rw [hres], ?_, ?_⟩
  · intro f vs hf
    have hlook : lookupFace (substituteVertexInFaces m old nw fcs).1 f
        = some (if f ∈ substTargets m old fcs then
                  vs.map (fun x => if x = old then nw else x)
                else vs) := by
      rw [hres]
      rw [lookupFace_mapFaces m _ _ _
        (fun p => if p.1 ∈ substTargets m old fcs then
          p.2.map (fun x => if x = old then nw else x) else p.2) f]
      rw [lookupFace_eq_some hf]
      rfl
    constructor
    · intro hmemt
      rw [if_pos hmemt] at hlook
      refine ⟨hlook, by simp, ?_, ?_⟩
      · intro k
        by_cases hk : k < vs.length
        · rw [List.getD_eq_getElem _ _ (by simpa using hk),
            List.getElem_map, List.getD_eq_getElem _ _ hk]
        · rw [List.getD_eq_default _ _ (by simpa using Nat.le_of_not_lt hk),
            List.getD_eq_default _ _ (Nat.le_of_not_lt hk)]
          simp
      · intro hold
        constructor
        · intro hc
          obtain ⟨x, hx, hxe⟩ := List.mem_map.1 hc
          by_cases hxo : x = old
          · rw [if_pos hxo] at hxe
            exact hne hxe.symm
          · rw [if_neg hxo] at hxe
            exact hxo hxe
        · exact List.mem_map.2 ⟨old, hold, by rw [if_pos rfl]⟩
    · intro hcase
      rcases hcase with hnot | hnold
      · rw [if_neg hnot] at hlook
        exact hlook
      · by_cases hmemt : f ∈ substTargets m old fcs
        · rw [if_pos hmemt] at hlook
          have hid : vs.map (fun x => if x = old then nw else x) = vs := by
            have h1 : ∀ a ∈ vs, (if a = old then nw else a) = id a := by
              intro a ha
              rw [if_neg (fun h => hnold (by rw [← h]; exact ha))]
              rfl
            rw [List.map_congr_left h1, List.map_id]
          rw [hid] at hlook
          exact hlook
        · rw [if_neg hmemt] at hlook
          exact hlook
  · intro hn f vs hf hold
    subst hn
    have hmem : (f, vs) ∈ m.faces :=
      List.mem_of_find?_eq_some (lookupFace_eq_some hf)
    have : (f, vs) ∈ m.faces.filter (fun p => p.2.contains old) :=
      List.mem_filter.2 ⟨hmem, List.elem_eq_true_of_mem hold⟩
    exact List.mem_map_of_mem Prod.fst this

/-- Claim C5, counterexample to the unamended claim: with `old = new = 0` the
call succeeds and the targeted face `0` of `mesh_0`, which contained `old`,
still contains `old` afterwards — so "afterwards `old` is absent in every
targeted face that contained `old`" fails without the `old ≠ new` proviso. -/
theorem substituteVertexInFaces_same_counterexample :
    hasVertexB mesh0 0 = true ∧
    (0 : Nat) ∈ substTargets mesh0 0 none ∧
    lookupFace mesh0 0 = some [0, 1, 2] ∧
    (substituteVertexInFaces mesh0 0 0 none).2 = .ok () ∧
    lookupFace (substituteVertexInFaces mesh0 0 0 none).1 0 = some [0, 1, 2] ∧
    (0 : Nat) ∈ [0, 1, 2] := by
  decide

/-- Claim C5, concrete witness: the unit-test scenario
`substitute_vertex_in_faces(mesh_0, 0, 4)` followed by the restricted reverse
substitution on face `1` only. -/
theorem substituteVertexInFaces_spec_witness :
    (hasVertexB mesh0 4 = true ∧ (0 : Nat) ≠ 4) ∧
    ((substituteVertexInFaces mesh0 0 4 none).2 = .ok () ∧
     (∀ f vs, lookupFace mesh0 f = some vs →
       (f ∈ substTargets mesh0 0 none →
         lookupFace (substituteVertexInFaces mesh0 0 4 none).1 f
           = some (vs.map (fun x => if x = 0 then 4 else x)) ∧
         (vs.map (fun x => if x = 0 then 4 else x)).length = vs.length ∧
         (∀ k, (vs.map (fun x => if x = 0 then 4 else x)).getD k 4
           = if vs.getD k 0 = 0 then 4 else vs.getD k 0) ∧
         (0 ∈ vs →
           0 ∉ vs.map (fun x => if x = 0 then 4 else x) ∧
           4 ∈ vs.map (fun x => if x = 0 then 4 else x))) ∧
       ((f ∉ substTargets mesh0 0 none ∨ 0 ∉ vs) →
         lookupFace (substituteVertexInFaces mesh0 0 4 none).1 f = some vs)) ∧
     ((none : Option (List Nat)) = none →
       ∀ f vs, lookupFace mesh0 f = some vs → 0 ∈ vs →
         f ∈ substTargets mesh0 0 none)) ∧
    (lookupFace (substituteVertexInFaces mesh0 0 4 none).1 0 = some [4, 1, 2] ∧
     lookupFace (substituteVertexInFaces mesh0 0 4 none).1 1 = some [4, 3, 1] ∧
     lookupFace (substituteVertexInFaces
         (substituteVertexInFaces mesh0 0 4 none).1 4 0 (some [1])).1 0
       = some [4, 1, 2] ∧
     lookupFace (substituteVertexInFaces
         (substituteVertexInFaces mesh0 0 4 none).1 4 0 (some [1])).1 1
       = some [0, 3, 1]) :=
  ⟨⟨by decide, by decide⟩,
   substituteVertexInFaces_spec mesh0 0 4 none (by decide) (by decide),
   by decide, by decide, by decide, by decide⟩

/-- The counterexample mesh for the round-trip claim: face `1` contains both
the substituted vertex `0` and its replacement `4`. -/
def mesh6 : Mesh :=
  fromVerticesAndFaces
    [(0, 0, 0), (1, 0, 0), (0, 1, 0), (1, 1, 0), (2, 0, 0)]
    [[0, 1, 2], [0, 4, 1]]

/-- Claim C6, counterexample: on `mesh6`, with `f = 0`, `old = 0`, `new = 4`
(so `old ∈ f` and `new ∉ f` as the claim requires), substituting `0 → 4` and
then `4 → 0` restricted to the same faces does not restore the mesh, because
face `1` contained both `0` and `4`. -/
theorem substituteVertexInFaces_roundtrip_counterexample :
    hasVertexB mesh6 0 = true ∧ hasVertexB mesh6 4 = true ∧
    lookupFace mesh6 0 = some [0, 1, 2] ∧
    (0 : Nat) ∈ [0, 1, 2] ∧ (4 : Nat) ∉ [0, 1, 2] ∧
    (substituteVertexInFaces
        (substituteVertexInFaces mesh6 0 4 none).1 4 0
        (some (substTargets mesh6 0 none))).1 ≠ mesh6 ∧
    lookupFace (substituteVertexInFaces
        (substituteVertexInFaces mesh6 0 4 none).1 4 0
        (some (substTargets mesh6 0 none))).1 1 = some [0, 0, 1] := by
  decide

/-- Claim C6 (amended): for a valid mesh and distinct existing vertices `old`
and `new` such that no face containing `old` also contains `new`,
substituting `old → new` over all faces containing `old` and then `new → old`
restricted to the same faces restores the mesh exactly. -/
theorem substituteVertexInFaces_roundtrip (m : Mesh) (old nw : Nat)
    (hm : MeshValid m) (hold : hasVertexB m old = true)
    (hnw : hasVertexB m nw = true) (hne : old ≠ nw)
    (hsep : ∀ p ∈ m.faces, old ∈ p.2 → nw ∉ p.2) :
    (substituteVertexInFaces
       (substituteVertexInFaces m old nw none).1 nw old
       (some (substTargets m old none))).1 = m := by
  have hres₁ := substituteVertexInFaces_ok m old nw none hnw
  set ts := substTargets m old none with hts
  set m₁ := (substituteVertexInFaces m old nw none).1 with hm₁
  have hm₁eq : m₁ =
      { vertices := m.vertices,
        faces := m.faces.map (fun p =>
          (p.1, if p.1 ∈ ts then p.2.map (fun x => if x = old then nw else x)
                else p.2)),
        maxVertex := m.maxVertex, maxFace := m.maxFace } := by
    rw [hm₁, hres₁]
  have hold₁ : hasVertexB m₁ old = true := by
    rw [hm₁eq]
    exact hold
  have hres₂ := substituteVertexInFaces_ok m₁ nw old (some ts) hold₁
  have hts₂ : substTargets m₁ nw (some ts) = ts := rfl
  rw [hres₂, hts₂]
  rw [hm₁eq]
  obtain ⟨hnodup, _, _, _⟩ := hm
  have hfaces : (m.faces.map (fun p =>
      (p.1, if p.1 ∈ ts then p.2.map (fun x => if x = old then nw else x)
            else p.2))).map (fun p =>
      (p.1, if p.1 ∈ ts then p.2.map (fun x => if x = nw then old else x)
            else p.2)) = m.faces := by
    rw [List.map_map]
    have hpt : ∀ p ∈ m.faces,
        ((fun p => (p.1, if p.1 ∈ ts then
            p.2.map (fun x => if x = nw then old else x) else p.2)) ∘
         (fun p => (p.1, if p.1 ∈ ts then
            p.2.map (fun x => if x = old then nw else x) else p.2))) p
          = id p := by
      intro p hp
      simp only [Function.comp_apply, id]
      by_cases hpts : p.1 ∈ ts
      · rw [if_pos hpts, if_pos hpts]
        have holdp : old ∈ p.2 := by
          obtain ⟨q, hq, hqk⟩ := List.mem_map.1 (hts ▸ hpts)
          have hqf := List.mem_filter.1 hq
          have : q = p := mem_key_unique hnodup hqf.1 hp hqk
          rw [← this]
          exact List.elem_iff.1 hqf.2
        have hnwp : nw ∉ p.2 := hsep p hp holdp
        rw [List.map_map]
        have h1 : ∀ a ∈ p.2,
            ((fun x => if x = nw then old else x) ∘
             (fun x => if x = old then nw else x)) a = id a := by
          intro a ha
          simp only [Function.comp_apply, id]
          by_cases hao : a = old
          · rw [if_pos hao, if_pos rfl, hao]
          · rw [if_neg hao, if_neg (fun h => hnwp (by rw [← h]; exact ha))]
        rw [List.map_congr_left h1, List.map_id]
      · rw [if_neg hpts, if_neg hpts]
    rw [List.map_congr_left hpt, List.map_id]
  rw [hfaces]

/-- Claim C6 (amended), concrete witness: the unit-test round trip on `mesh_0`
with `old = 0`, `new = 4` (no face of `mesh_0` contains both). -/
theorem substituteVertexInFaces_roundtrip_witness :
    (MeshValid mesh0 ∧ hasVertexB mesh0 0 = true ∧ hasVertexB mesh0 4 = true ∧
     (0 : Nat) ≠ 4 ∧ (∀ p ∈ mesh0.faces, 0 ∈ p.2 → 4 ∉ p.2)) ∧
    (substituteVertexInFaces
       (substituteVertexInFaces mesh0 0 4 none).1 4 0
       (some (substTargets mesh0 0 none))).1 = mesh0 :=
  ⟨⟨by decide, by decide, by decide, by decide, by decide⟩,
   substituteVertexInFaces_roundtrip mesh0 0 4 (by decide) (by decide)
     (by decide) (by decide) (by decide)⟩

/-- Translated from `GeometryPlotter.zoom_extents`
(`src/compas_plotters/geometryplotter.py`): the artists' data lists are
concatenated (`data = []; for artist: data += artist.data`); `x, y =
zip(*data)` raises on an empty collection (modelled as `none`); otherwise the
new axes limits are the minima and maxima of the x and y coordinates. -/
def zoom_extents (artists : List (List (Rat × Rat))) :
    Option ((Rat × Rat) × (Rat × Rat)) :=
  match artists.foldl (fun acc a => acc ++ a) [] with
  | [] => none
  | q :: qs =>
    some (((qs.map Prod.fst).foldl min q.1, (qs.map Prod.fst).foldl max q.1),
          ((qs.map Prod.snd).foldl min q.2, (qs.map Prod.snd).foldl max q.2))

theorem foldl_append_eq_flatten (artists : List (List (Rat × Rat)))
    (acc : List (Rat × Rat)) :
    artists.foldl (fun acc a => acc ++ a) acc = acc ++ artists.flatten := by
  induction artists generalizing acc with
  | nil => simp
  | cons a t ih => simp [ih, List.append_assoc]

/-- Claim C10: `zoom_extents` fails exactly when every artist's data list is
empty (it unpacks `zip(*[])`), and with at least one non-empty artist it
succeeds with the x and y limits set to the minima and maxima of all artists'
data. -/
theorem zoom_extents_spec (artists : List (List (Rat × Rat))) :
    (zoom_extents artists = none ↔ ∀ a ∈ artists, a = []) ∧
    ((∃ a ∈ artists, a ≠ []) →
      ∃ xmin xmax ymin ymax,
        zoom_extents artists = some ((xmin, xmax), (ymin, ymax)) ∧
        (artists.flatten.map Prod.fst).min? = some xmin ∧
        (artists.flatten.map Prod.fst).max? = some xmax ∧
        (artists.flatten.map Prod.snd).min? = some ymin ∧
        (artists.flatten.map Prod.snd).max? = some ymax) := by
  have hdata : artists.foldl (fun acc a => acc ++ a) [] = artists.flatten := by
    rw [foldl_append_eq_flatten]
    rfl
  constructor
  · rw [zoom_extents, hdata]
    cases hj : artists.flatten with
    | nil =>
      simpa using List.flatten_eq_nil_iff.1 hj
    | cons q qs =>
      constructor
      · intro h
        simp at h
      · intro h
        have : artists.flatten = [] := List.flatten_eq_nil_iff.2 h
        rw [hj] at this
        simp at this
  · intro ⟨a, ha, hne⟩
    rw [zoom_extents, hdata]
    cases hj : artists.flatten with
    | nil =>
      exact absurd (List.flatten_eq_nil_iff.1 hj a ha) hne
    | cons q qs =>
      refine ⟨_, _, _, _, rfl, ?_, ?_, ?_, ?_⟩ <;> rfl

/-- Claim C10, concrete witness: with no artists `zoom_extents` fails, and
with one two-point artist it returns the coordinate extrema. -/
theorem zoom_extents_spec_witness :
    ((∃ a ∈ [[((3 : Rat), (1 : Rat)), ((0 : Rat), (2 : Rat))]], a ≠ []) ∧
     (∃ xmin xmax ymin ymax,
        zoom_extents [[((3 : Rat), (1 : Rat)), ((0 : Rat), (2 : Rat))]]
          = some ((xmin, xmax), (ymin, ymax)) ∧
        ([[((3 : Rat), (1 : Rat)), ((0 : Rat), (2 : Rat))]].flatten.map
          Prod.fst).min? = some xmin ∧
        ([[((3 : Rat), (1 : Rat)), ((0 : Rat), (2 : Rat))]].flatten.map
          Prod.fst).max? = some xmax ∧
        ([[((3 : Rat), (1 : Rat)), ((0 : Rat), (2 : Rat))]].flatten.map
          Prod.snd).min? = some ymin ∧
        ([[((3 : Rat), (1 : Rat)), ((0 : Rat), (2 : Rat))]].flatten.map
          Prod.snd).max? = some ymax)) ∧
    zoom_extents [] = none ∧
    zoom_extents [[], []] = none ∧
    zoom_extents [[((3 : Rat), (1 : Rat)), ((0 : Rat), (2 : Rat))]]
      = some ((0, 3), (1, 2)) :=
  ⟨⟨⟨[((3 : Rat), (1 : Rat)), ((0 : Rat), (2 : Rat))], by decide, by decide⟩,
    (zoom_extents_spec [[((3 : Rat), (1 : Rat)), ((0 : Rat), (2 : Rat))]]).2
      ⟨[((3 : Rat), (1 : Rat)), ((0 : Rat), (2 : Rat))], by decide, by decide⟩⟩,
   by decide, by decide, by decide⟩

/-- The consecutive (directed) pairs of an open path. -/
def pathEdges : List Nat → List (Nat × Nat)
  | a :: b :: rest => (a, b) :: pathEdges (b :: rest)
  | _ => []

/-- The directed boundary edges of the face with cyclic vertex sequence `l`:
the consecutive pairs, including the wrap-around pair from the last vertex
back to the first. -/
def faceEdges (l : List Nat) : List (Nat × Nat) :=
  pathEdges (l ++ l.take 1)

theorem pathEdges_append_cons (xs : List Nat) (y : Nat) (ys : List Nat) :
    pathEdges (xs ++ y :: ys) = pathEdges (xs ++ [y]) ++ pathEdges (y :: ys) := by
  induction xs with
  | nil => simp [pathEdges]
  | cons a xs ih =>
    cases xs with
    | nil => simp [pathEdges]
    | cons c xs' =>
      simp only [List.cons_append, List.append_eq, pathEdges] at ih ⊢
      rw [ih]

theorem faceEdges_swap (xs ys : List Nat) :
    (↑(faceEdges (xs ++ ys)) : Multiset (Nat × Nat)) = ↑(faceEdges (ys ++ xs)) := by
  cases xs with
  | nil => simp
  | cons a xs' =>
    cases ys with
    | nil => simp
    | cons b ys' =>
      have h1 : faceEdges ((a :: xs') ++ (b :: ys'))
          = pathEdges ((a :: xs') ++ [b]) ++ pathEdges (b :: (ys' ++ [a])) := by
        unfold faceEdges
        rw [show ((a :: xs') ++ (b :: ys')) ++ ((a :: xs') ++ (b :: ys')).take 1
            = (a :: xs') ++ b :: (ys' ++ [a]) by simp]
        exact pathEdges_append_cons (a :: xs') b (ys' ++ [a])
      have h2 : faceEdges ((b :: ys') ++ (a :: xs'))
          = pathEdges ((b :: ys') ++ [a]) ++ pathEdges (a :: (xs' ++ [b])) := by
        unfold faceEdges
        rw [show ((b :: ys') ++ (a :: xs')) ++ ((b :: ys') ++ (a :: xs')).take 1
            = (b :: ys') ++ a :: (xs' ++ [b]) by simp]
        exact pathEdges_append_cons (b :: ys') a (xs' ++ [b])
      rw [h1, h2]
      exact Multiset.coe_eq_coe.2 List.perm_append_comm

theorem faceEdges_blocks (P M S : List Nat) (x y : Nat) :
    (↑(faceEdges (P ++ x :: (M ++ y :: S))) : Multiset (Nat × Nat))
      = ↑(pathEdges ((x :: M) ++ [y])) + ↑(pathEdges (y :: (S ++ (P ++ [x])))) := by
  rw [faceEdges_swap P (x :: (M ++ y :: S))]
  have harg : (x :: (M ++ y :: S)) ++ P = x :: (M ++ y :: (S ++ P)) := by
    simp
  rw [harg]
  have hface : faceEdges (x :: (M ++ y :: (S ++ P)))
      = pathEdges ((x :: M) ++ y :: ((S ++ P) ++ [x])) := by
    unfold faceEdges
    congr 1
    simp
  rw [hface, pathEdges_append_cons (x :: M) y ((S ++ P) ++ [x])]
  have harg2 : y :: ((S ++ P) ++ [x]) = y :: (S ++ (P ++ [x])) := by simp
  rw [harg2, ← Multiset.coe_add]

theorem faceEdges_runA_eq (M : List Nat) (x y : Nat) :
    (↑(faceEdges (x :: (M ++ [y]))) : Multiset (Nat × Nat))
      = ↑(pathEdges ((x :: M) ++ [y])) + {(y, x)} := by
  have hface : faceEdges (x :: (M ++ [y]))
      = pathEdges ((x :: M) ++ y :: [x]) := by
    unfold faceEdges
    congr 1
    simp
  rw [hface, pathEdges_append_cons (x :: M) y [x]]
  rw [← Multiset.coe_add]
  rfl

theorem faceEdges_runB_eq (S P : List Nat) (x y : Nat) :
    (↑(faceEdges (y :: (S ++ (P ++ [x])))) : Multiset (Nat × Nat))
      = ↑(pathEdges (y :: (S ++ (P ++ [x])))) + {(x, y)} := by
  have hface : faceEdges (y :: (S ++ (P ++ [x])))
      = pathEdges ((y :: (S ++ P)) ++ x :: [y]) := by
    unfold faceEdges
    congr 1
    simp
  rw [hface, pathEdges_append_cons (y :: (S ++ P)) x [y]]
  have harg : (y :: (S ++ P)) ++ [x] = y :: (S ++ (P ++ [x])) := by simp
  rw [harg, ← Multiset.coe_add]
  rfl

theorem indexOf_split {vs : List Nat} {u v : Nat} (hu : u ∈ vs) (hv : v ∈ vs)
    (hij : vs.indexOf u < vs.indexOf v) :
    ∃ P M S, vs = P ++ u :: (M ++ v :: S) ∧
      P.length = vs.indexOf u ∧ (P ++ u :: M).length = vs.indexOf v := by
  have hiu : vs.indexOf u < vs.length := List.indexOf_lt_length.2 hu
  have hjv : vs.indexOf v < vs.length := List.indexOf_lt_length.2 hv
  have hgu : vs[vs.indexOf u] = u := List.getElem_indexOf hiu
  have hgv : vs[vs.indexOf v] = v := List.getElem_indexOf hjv
  refine ⟨vs.take (vs.indexOf u),
    (vs.drop (vs.indexOf u + 1)).take (vs.indexOf v - vs.indexOf u - 1),
    vs.drop (vs.indexOf v + 1), ?_, ?_, ?_⟩
  · conv_lhs => rw [← List.take_append_drop (vs.indexOf u) vs]
    congr 1
    rw [List.drop_eq_getElem_cons hiu, hgu]
    congr 1
    conv_lhs => rw [← List.take_append_drop
      (vs.indexOf v - vs.indexOf u - 1) (vs.drop (vs.indexOf u + 1))]
    congr 1
    rw [List.drop_drop]
    have harith : vs.indexOf u + 1 + (vs.indexOf v - vs.indexOf u - 1)
        = vs.indexOf v := by omega
    rw [harith, List.drop_eq_getElem_cons hjv, hgv]
  · rw [List.length_take]
    omega
  · rw [List.length_append, List.length_take, List.length_cons,
      List.length_take, List.length_drop]
    omega

theorem splitRunA_eq {vs P M S : List Nat} {u v : Nat}
    (hd : vs = P ++ u :: (M ++ v :: S))
    (hP : P.length = vs.indexOf u)
    (hPM : (P ++ u :: M).length = vs.indexOf v)
    (hij : vs.indexOf u < vs.indexOf v) :
    splitRunA vs u v = u :: (M ++ [v]) := by
  unfold splitRunA
  rw [if_pos hij, ← hP, ← hPM, hd, List.drop_left]
  have harith : (P ++ u :: M).length - P.length + 1 = M.length + 2 := by
    simp [List.length_append]
  rw [harith]
  rw [show u :: (M ++ v :: S) = (u :: (M ++ [v])) ++ S by simp]
  apply List.take_left'
  simp

theorem splitRunB_eq {vs P M S : List Nat} {u v : Nat}
    (hd : vs = P ++ u :: (M ++ v :: S))
    (hP : P.length = vs.indexOf u)
    (hPM : (P ++ u :: M).length = vs.indexOf v)
    (hij : vs.indexOf u < vs.indexOf v) :
    splitRunB vs u v = v :: (S ++ (P ++ [u])) := by
  unfold splitRunB
  rw [if_pos hij, ← hP, ← hPM, hd]
  rw [show (v :: (S ++ (P ++ [u]))) = (v :: S) ++ (P ++ [u]) by simp]
  congr 1
  · rw [show P ++ u :: (M ++ v :: S) = (P ++ u :: M) ++ v :: S by simp]
    exact List.drop_left _ _
  · rw [show P ++ u :: (M ++ v :: S) = (P ++ [u]) ++ (M ++ v :: S) by simp]
    apply List.take_left'
    simp

theorem splitRun_swap {vs : List Nat} {u v : Nat}
    (h : vs.indexOf v < vs.indexOf u) :
    splitRunA vs u v = splitRunB vs v u ∧ splitRunB vs u v = splitRunA vs v u := by
  have h' : ¬ vs.indexOf u < vs.indexOf v := by omega
  unfold splitRunA splitRunB
  rw [if_neg h', if_neg h', if_pos h, if_pos h]
  exact ⟨rfl, rfl⟩

theorem find?_eraseP_keys_none {m : Mesh} (hm : MeshValid m) {k : Nat}
    (hk : m.maxFace < k) {f : Nat} :
    (m.faces.eraseP (fun p => p.1 == f)).find? (fun p => p.1 == k) = none := by
  rw [List.find?_eq_none]
  intro q hq hc
  have hqm : q ∈ m.faces := List.eraseP_subset _ hq
  have := hm.2.1 q hqm
  have := eq_of_beq hc
  omega

/-- Claim C4: a valid `split_face(mesh, f, u, v)` call replaces the face by
two new faces whose vertex sequences partition the original cyclic sequence
at `u` and `v` into two contiguous runs, and whose directed boundary edges
together are exactly the original face's directed edges plus the diagonal
`(u,v)` traversed once in each direction — one direction per new face, so the
diagonal is shared by exactly the two new faces and both keep the original
winding orientation. -/
theorem splitFace_partition (m : Mesh) (f u v : Nat) (vs : List Nat)
    (hm : MeshValid m) (hf : lookupFace m f = some vs)
    (hu : u ∈ vs) (hv : v ∈ vs) (huv : u ≠ v)
    (hadj : hasEdgeB vs u v = false) :
    ∃ m' fa fb,
      splitFace m f u v = (m', .ok (m.maxFace + 1, m.maxFace + 2)) ∧
      lookupFace m' (m.maxFace + 1) = some fa ∧
      lookupFace m' (m.maxFace + 2) = some fb ∧
      ((∃ P M S, vs = P ++ u :: (M ++ v :: S) ∧ fa = u :: (M ++ [v]) ∧
          fb = v :: (S ++ (P ++ [u]))) ∨
       (∃ P M S, vs = P ++ v :: (M ++ u :: S) ∧ fb = v :: (M ++ [u]) ∧
          fa = u :: (S ++ (P ++ [v])))) ∧
      (↑(faceEdges fa) + ↑(faceEdges fb) : Multiset (Nat × Nat))
        = ↑(faceEdges vs) + {(v, u), (u, v)} := by
  have h1 : (vs.contains u && vs.contains v) = true :=
    Bool.and_eq_true_iff.2 ⟨List.elem_iff.2 hu, List.elem_iff.2 hv⟩
  have h2 : (u == v || hasEdgeB vs u v) = false := by
    rw [Bool.or_eq_false_iff]
    exact ⟨beq_eq_false_iff_ne.2 huv, hadj⟩
  have hres := splitFace_ok m f u v vs hf h1 h2
  refine ⟨_, splitRunA vs u v, splitRunB vs u v, hres, ?_, ?_, ?_, ?_⟩
  · simp only [lookupFace, List.find?_append]
    rw [find?_eraseP_keys_none hm (k := m.maxFace + 1) (by omega)]
    simp
  · simp only [lookupFace, List.find?_append]
    rw [find?_eraseP_keys_none hm (k := m.maxFace + 2) (by omega)]
    simp
  · have hiu : vs.indexOf u < vs.length := List.indexOf_lt_length.2 hu
    have hjv : vs.indexOf v < vs.length := List.indexOf_lt_length.2 hv
    have hij : vs.indexOf u ≠ vs.indexOf v := by
      intro he
      apply huv
      rw [← List.getElem_indexOf hiu, ← List.getElem_indexOf hjv]
      simp [he]
    rcases Nat.lt_or_ge (vs.indexOf u) (vs.indexOf v) with hlt | hge
    · obtain ⟨P, M, S, hd, hP, hPM⟩ := indexOf_split hu hv hlt
      exact .inl ⟨P, M, S, hd, splitRunA_eq hd hP hPM hlt,
        splitRunB_eq hd hP hPM hlt⟩
    · have hlt' : vs.indexOf v < vs.indexOf u := by omega
      obtain ⟨P, M, S, hd, hP, hPM⟩ := indexOf_split hv hu hlt'
      exact .inr ⟨P, M, S, hd,
        (splitRun_swap hlt').2 ▸ splitRunA_eq hd hP hPM hlt',
        (splitRun_swap hlt').1 ▸ splitRunB_eq hd hP hPM hlt'⟩
  · have hiu : vs.indexOf u < vs.length := List.indexOf_lt_length.2 hu
    have hjv : vs.indexOf v < vs.length := List.indexOf_lt_length.2 hv
    have hsingles : ({(v, u), (u, v)} : Multiset (Nat × Nat))
        = {(v, u)} + {(u, v)} := rfl
    rcases Nat.lt_or_ge (vs.indexOf u) (vs.indexOf v) with hlt | hge
    · obtain ⟨P, M, S, hd, hP, hPM⟩ := indexOf_split hu hv hlt
      rw [splitRunA_eq hd hP hPM hlt, splitRunB_eq hd hP hPM hlt, hd,
        faceEdges_runA_eq, faceEdges_runB_eq, faceEdges_blocks, hsingles]
      abel
    · have hij : vs.indexOf u ≠ vs.indexOf v := by
        intro he
        apply huv
        rw [← List.getElem_indexOf hiu, ← List.getElem_indexOf hjv]
        simp [he]
      have hlt' : vs.indexOf v < vs.indexOf u := by omega
      obtain ⟨P, M, S, hd, hP, hPM⟩ := indexOf_split hv hu hlt'
      rw [(splitRun_swap hlt').1, (splitRun_swap hlt').2,
        splitRunA_eq hd hP hPM hlt', splitRunB_eq hd hP hPM hlt', hd,
        faceEdges_runA_eq, faceEdges_runB_eq, faceEdges_blocks, hsingles]
      abel

/-- Claim C4, concrete witness: the valid call `split_face(0, 0, 2)` on the
quad mesh, with the two runs `[0, 1, 2]` and `[2, 3, 0]`. -/
theorem splitFace_partition_witness :
    (MeshValid meshQuads ∧ lookupFace meshQuads 0 = some [0, 1, 2, 3] ∧
     (0 : Nat) ∈ [0, 1, 2, 3] ∧ (2 : Nat) ∈ [0, 1, 2, 3] ∧ (0 : Nat) ≠ 2 ∧
     hasEdgeB [0, 1, 2, 3] 0 2 = false) ∧
    (∃ m' fa fb,
      splitFace meshQuads 0 0 2 = (m', .ok (meshQuads.maxFace + 1, meshQuads.maxFace + 2)) ∧
      lookupFace m' (meshQuads.maxFace + 1) = some fa ∧
      lookupFace m' (meshQuads.maxFace + 2) = some fb ∧
      ((∃ P M S, [0, 1, 2, 3] = P ++ 0 :: (M ++ 2 :: S) ∧ fa = 0 :: (M ++ [2]) ∧
          fb = 2 :: (S ++ (P ++ [0]))) ∨
       (∃ P M S, [0, 1, 2, 3] = P ++ 2 :: (M ++ 0 :: S) ∧ fb = 2 :: (M ++ [0]) ∧
          fa = 0 :: (S ++ (P ++ [2])))) ∧
      (↑(faceEdges fa) + ↑(faceEdges fb) : Multiset (Nat × Nat))
        = ↑(faceEdges [0, 1, 2, 3]) + {(2, 0), (0, 2)}) ∧
    (lookupFace (splitFace meshQuads 0 0 2).1 2 = some [0, 1, 2] ∧
     lookupFace (splitFace meshQuads 0 0 2).1 3 = some [2, 3, 0] ∧
     faceEdges [0, 1, 2] = [(0, 1), (1, 2), (2, 0)] ∧
     faceEdges [2, 3, 0] = [(2, 3), (3, 0), (0, 2)]) :=
  ⟨⟨by decide, by decide, by decide, by decide, by decide, by decide⟩,
   splitFace_partition meshQuads 0 0 2 [0, 1, 2, 3] (by decide) (by decide)
     (by decide) (by decide) (by decide) (by decide),
   by decide, by decide, by decide, by decide⟩

/-- No two cyclically consecutive entries of `vs` are equal (including the
wrap-around pair). -/
def NoCyclicRepeat (vs : List Nat) : Prop :=
  ∀ k, k < vs.length → vs.getD k 0 ≠ vs.getD ((k + 1) % vs.length) 0

instance noCyclicRepeatDecidable (vs : List Nat) : Decidable (NoCyclicRepeat vs) := by
  unfold NoCyclicRepeat
  infer_instance

/-- The data-model invariants of the spec (§3): every face has at least three
vertices, no immediate cyclic repeats, and references only existing
vertices. -/
def MeshInv (m : Mesh) : Prop :=
  ∀ p ∈ m.faces, 3 ≤ p.2.length ∧ NoCyclicRepeat p.2 ∧
    ∀ x ∈ p.2, hasVertexB m x = true

instance meshInvDecidable (m : Mesh) : Decidable (MeshInv m) := by
  unfold MeshInv
  infer_instance

/-- The referential-integrity and length part of the invariants (without the
no-repeat condition). -/
def RefLenInv (m : Mesh) : Prop :=
  ∀ p ∈ m.faces, 3 ≤ p.2.length ∧ ∀ x ∈ p.2, hasVertexB m x = true

instance refLenInvDecidable (m : Mesh) : Decidable (RefLenInv m) := by
  unfold RefLenInv
  infer_instance

theorem nodup_noCyclicRepeat {vs : List Nat} (hlen : 2 ≤ vs.length)
    (hnd : vs.Nodup) : NoCyclicRepeat vs := by
  intro k hk hc
  have hn : 0 < vs.length := by omega
  have hk' : (k + 1) % vs.length < vs.length := Nat.mod_lt _ hn
  rw [List.getD_eq_getElem _ _ hk, List.getD_eq_getElem _ _ hk'] at hc
  have hinj := List.nodup_iff_injective_get.1 hnd
  have heq : vs.get ⟨k, hk⟩ = vs.get ⟨(k + 1) % vs.length, hk'⟩ := by
    simp only [List.get_eq_getElem]
    exact hc
  have hkk : k = (k + 1) % vs.length := congrArg Fin.val (hinj heq)
  rcases Nat.lt_or_ge (k + 1) vs.length with h | h
  · rw [Nat.mod_eq_of_lt h] at hkk
    omega
  · have : k + 1 = vs.length := by omega
    rw [← this, Nat.mod_self] at hkk
    omega

theorem meshValid_inv {m : Mesh} (hm : MeshValid m) : MeshInv m := by
  intro p hp
  obtain ⟨hlen, hnd, href⟩ := hm.2.2.2 p hp
  exact ⟨hlen, nodup_noCyclicRepeat (by omega) hnd, href⟩

theorem hasVertexB_addVertex (m : Mesh) (k : Nat) (pt : Point) (x : Nat) :
    hasVertexB (addVertex m k pt) x = (hasVertexB m x || k == x) := by
  rw [Bool.eq_iff_iff, Bool.or_eq_true]
  unfold hasVertexB addVertex
  by_cases hk : m.vertices.any (fun p => p.1 == k) = true
  · rw [if_pos hk]
    simp only [List.any_map, List.any_eq_true, Function.comp]
    constructor
    · rintro ⟨p, hp, hpx⟩
      by_cases hpk : (p.1 == k) = true
      · rw [if_pos hpk] at hpx
        exact .inr hpx
      · rw [if_neg hpk] at hpx
        exact .inl ⟨p, hp, hpx⟩
    · rintro (⟨p, hp, hpx⟩ | hkx)
      · by_cases hpk : (p.1 == k) = true
        · refine ⟨p, hp, ?_⟩
          rw [if_pos hpk]
          have h1 := eq_of_beq hpk
          have h2 := eq_of_beq hpx
          exact beq_iff_eq.2 (by omega)
        · exact ⟨p, hp, by rw [if_neg hpk]; exact hpx⟩
      · obtain ⟨p, hp, hpk⟩ := List.any_eq_true.1 hk
        refine ⟨p, hp, ?_⟩
        rw [if_pos hpk]
        exact hkx
  · rw [if_neg hk, List.any_append]
    simp [Bool.or_eq_true]

theorem hasVertexB_le_maxVertex {m : Mesh} (hm : MeshValid m) {x : Nat}
    (hx : hasVertexB m x = true) : x ≤ m.maxVertex := by
  obtain ⟨p, hp, hpx⟩ := List.any_eq_true.1 hx
  have := hm.2.2.1 p hp
  have := eq_of_beq hpx
  omega

theorem spliceAt_perm (vs : List Nat) (i w : Nat) :
    (spliceAt vs i w).Perm (w :: vs) := by
  unfold spliceAt
  refine List.Perm.trans List.perm_middle ?_
  rw [List.take_append_drop]

theorem insertBetween_eq_or (vs : List Nat) (u v w : Nat) :
    insertBetween vs u v w = vs ∨
    ∃ i, i < vs.length ∧ insertBetween vs u v w = spliceAt vs i w := by
  unfold insertBetween
  cases hf : findDirectedEdge vs u v with
  | some i => exact .inr ⟨i, (findDirectedEdge_some hf).1, rfl⟩
  | none =>
    cases hg : findDirectedEdge vs v u with
    | some i => exact .inr ⟨i, (findDirectedEdge_some hg).1, rfl⟩
    | none => exact .inl rfl

theorem hasEdgeB_symm (vs : List Nat) (a b : Nat) :
    hasEdgeB vs a b = hasEdgeB vs b a := by
  unfold hasEdgeB
  exact Bool.or_comm _ _

theorem meshInv_insert (m : Mesh) (u v : Nat) (hm : MeshValid m) :
    MeshInv (insertVertexOnEdge m u v none).1 := by
  by_cases h1 : (hasVertexB m u && hasVertexB m v) = true
  · by_cases h2 : incidentPairs m u v = []
    · rw [insertVertexOnEdge, if_pos h1, if_pos h2]
      exact meshValid_inv hm
    · have hres : insertVertexOnEdge m u v none
          = ({ vertices :=
                 (addVertex m (freshVertexKey m) (midpoint m u v)).vertices,
               faces := m.faces.map
                 (fun p => (p.1, insertBetween p.2 u v (freshVertexKey m))),
               maxVertex := max m.maxVertex (freshVertexKey m),
               maxFace := m.maxFace }, .ok (freshVertexKey m)) := by
        rw [insertVertexOnEdge, if_pos h1, if_neg h2]
        rfl
      rw [hres]
      have hvert : ∀ x : Nat,
          hasVertexB (insertVertexOnEdge m u v none).1 x
            = (hasVertexB m x || (freshVertexKey m == x)) := by
        intro x
        rw [hres]
        exact hasVertexB_addVertex m (freshVertexKey m) (midpoint m u v) x
      rw [← hres]
      intro p hp
      have hp' : p ∈ m.faces.map
          (fun p => (p.1, insertBetween p.2 u v (freshVertexKey m))) := by
        have : (insertVertexOnEdge m u v none).1.faces
            = m.faces.map
              (fun p => (p.1, insertBetween p.2 u v (freshVertexKey m))) := by
          rw [hres]
        rw [← this]
        exact hp
      obtain ⟨q, hq, rfl⟩ := List.mem_map.1 hp'
      obtain ⟨hlen, hnd, href⟩ := hm.2.2.2 q hq
      have hfresh : freshVertexKey m ∉ q.2 := by
        intro hmem
        have := hasVertexB_le_maxVertex hm (href _ hmem)
        unfold freshVertexKey at this
        omega
      rcases insertBetween_eq_or q.2 u v (freshVertexKey m) with heq | ⟨i, hi, heq⟩
      · simp only [heq]
        refine ⟨hlen, nodup_noCyclicRepeat (by omega) hnd, fun x hx => ?_⟩
        rw [hvert, href x hx]
        rfl
      · simp only [heq]
        have hnd' : (spliceAt q.2 i (freshVertexKey m)).Nodup := by
          rw [List.Perm.nodup_iff (spliceAt_perm q.2 i (freshVertexKey m))]
          exact List.nodup_cons.2 ⟨hfresh, hnd⟩

        refine ⟨by rw [length_spliceAt hi]; omega,
          nodup_noCyclicRepeat (by rw [length_spliceAt hi]; omega) hnd',
          fun x hx => ?_⟩
        have hx' : x ∈ freshVertexKey m :: q.2 :=
          (List.Perm.mem_iff (spliceAt_perm q.2 i (freshVertexKey m))).1 hx
        rw [hvert]
        rcases List.mem_cons.1 hx' with rfl | hx''
        · simp
        · rw [href x hx'']
          rfl
  · rw [insertVertexOnEdge, if_neg h1]
    exact meshValid_inv hm

theorem splitRun_core {vs P M S : List Nat} {x y : Nat}
    (hd : vs = P ++ x :: (M ++ y :: S))
    (hnd : vs.Nodup)
    (hadj : hasEdgeB vs x y = false) :
    (3 ≤ (x :: (M ++ [y])).length ∧ (x :: (M ++ [y])).Nodup ∧
      ∀ z ∈ x :: (M ++ [y]), z ∈ vs) ∧
    (3 ≤ (y :: (S ++ (P ++ [x]))).length ∧ (y :: (S ++ (P ++ [x]))).Nodup ∧
      ∀ z ∈ y :: (S ++ (P ++ [x])), z ∈ vs) := by
  have hfxy : findDirectedEdge vs x y = none := by
    cases h : findDirectedEdge vs x y with
    | none => rfl
    | some i => rw [hasEdgeB, h] at hadj; simp at hadj
  have hfyx : findDirectedEdge vs y x = none := by
    cases h : findDirectedEdge vs y x with
    | none => rfl
    | some i => rw [hasEdgeB, h] at hadj; simp at hadj
  have hsubA : (x :: (M ++ [y])).Sublist vs := by
    rw [hd]
    have h1 : (x :: (M ++ [y])).Sublist (x :: (M ++ y :: S)) :=
      List.Sublist.cons₂ x
        (List.Sublist.append_left
          (List.Sublist.cons₂ y (List.nil_sublist S)) M)
    exact h1.trans (List.sublist_append_right P _)
  have hndA : (x :: (M ++ [y])).Nodup := hnd.sublist hsubA
  have hpermB : (y :: (S ++ (P ++ [x]))).Perm (P ++ x :: y :: S) := by
    have h1 : (y :: S) ++ (P ++ [x]) = y :: (S ++ (P ++ [x])) := rfl
    have h2 : ((P ++ [x]) ++ (y :: S)).Perm (P ++ x :: y :: S) := by
      rw [List.append_assoc]
      rfl
    exact (h1 ▸ List.perm_append_comm).trans h2
  have hsubB : (P ++ x :: y :: S).Sublist vs := by
    rw [hd]
    exact List.Sublist.append_left
      (List.Sublist.cons₂ x (List.sublist_append_right M _)) P
  have hndB : (y :: (S ++ (P ++ [x]))).Nodup := by
    rw [List.Perm.nodup_iff hpermB]
    exact hnd.sublist hsubB
  have hvslen : vs.length = P.length + M.length + S.length + 2 := by
    rw [hd]
    simp
    omega
  refine ⟨⟨?_, hndA, fun z hz => hsubA.subset hz⟩,
    ⟨?_, hndB, fun z hz => hsubB.subset ((List.Perm.mem_iff hpermB).1 hz)⟩⟩
  · rcases M with _ | ⟨c, M'⟩
    · exfalso
      refine findDirectedEdge_eq_none hfxy P.length ?_ ⟨?_, ?_⟩
      · omega
      · rw [hd]
        rw [List.getD_append_right _ _ _ _ (Nat.le_refl _), Nat.sub_self]
        rfl
      · have hmod : (P.length + 1) % vs.length = P.length + 1 := by
          apply Nat.mod_eq_of_lt
          omega
        rw [hmod, hd, List.getD_append_right _ _ _ _ (by omega)]
        have : P.length + 1 - P.length = 1 := by omega
        rw [this]
        rfl
    · simp
  · by_contra hc
    have hSP : S.length + P.length = 0 := by
      simp only [List.length_cons, List.length_append, List.length_nil] at hc
      omega
    have hS : S = [] := List.length_eq_zero.1 (by omega)
    have hP : P = [] := List.length_eq_zero.1 (by omega)
    subst hS hP
    simp only [List.nil_append] at hd
    refine findDirectedEdge_eq_none hfyx (M.length + 1) ?_ ⟨?_, ?_⟩
    · omega
    · rw [hd, List.getD_cons_succ, List.getD_append_right _ _ _ _ (Nat.le_refl _),
        Nat.sub_self]
      rfl
    · have hmod : (M.length + 1 + 1) % vs.length = 0 := by
        have : vs.length = M.length + 2 := by omega
        rw [this]
        simp [Nat.add_assoc]
      rw [hmod, hd]
      rfl

theorem splitRuns_good (vs : List Nat) (u v : Nat) (hnd : vs.Nodup)
    (hu : u ∈ vs) (hv : v ∈ vs) (huv : u ≠ v)
    (hadj : hasEdgeB vs u v = false) :
    (3 ≤ (splitRunA vs u v).length ∧ (splitRunA vs u v).Nodup ∧
      ∀ z ∈ splitRunA vs u v, z ∈ vs) ∧
    (3 ≤ (splitRunB vs u v).length ∧ (splitRunB vs u v).Nodup ∧
      ∀ z ∈ splitRunB vs u v, z ∈ vs) := by
  have hiu : vs.indexOf u < vs.length := List.indexOf_lt_length.2 hu
  have hjv : vs.indexOf v < vs.length := List.indexOf_lt_length.2 hv
  have hij : vs.indexOf u ≠ vs.indexOf v := by
    intro he
    apply huv
    rw [← List.getElem_indexOf hiu, ← List.getElem_indexOf hjv]
    simp [he]
  rcases Nat.lt_or_ge (vs.indexOf u) (vs.indexOf v) with hlt | hge
  · obtain ⟨P, M, S, hd, hP, hPM⟩ := indexOf_split hu hv hlt
    rw [splitRunA_eq hd hP hPM hlt, splitRunB_eq hd hP hPM hlt]
    exact splitRun_core hd hnd hadj
  · have hlt' : vs.indexOf v < vs.indexOf u := by omega
    obtain ⟨P, M, S, hd, hP, hPM⟩ := indexOf_split hv hu hlt'
    rw [(splitRun_swap hlt').1, (splitRun_swap hlt').2,
      splitRunA_eq hd hP hPM hlt', splitRunB_eq hd hP hPM hlt']
    have hadj' : hasEdgeB vs v u = false := by
      rw [hasEdgeB_symm]
      exact hadj
    exact (splitRun_core hd hnd hadj').symm

theorem meshInv_split (m : Mesh) (f u v : Nat) (hm : MeshValid m) :
    MeshInv (splitFace m f u v).1 := by
  cases hf : lookupFace m f with
  | none =>
    simp only [splitFace, hf]
    exact meshValid_inv hm
  | some vs =>
    by_cases h1 : (vs.contains u && vs.contains v) = true
    · by_cases h2 : (u == v || hasEdgeB vs u v) = true
      · simp only [splitFace, hf]
        rw [if_pos h1, if_pos h2]
        exact meshValid_inv hm
      · have h2' : (u == v || hasEdgeB vs u v) = false := by
          cases h : (u == v || hasEdgeB vs u v)
          · rfl
          · exact absurd h h2
        have hres := splitFace_ok m f u v vs hf h1 h2'
        have hmemf : (f, vs) ∈ m.faces :=
          List.mem_of_find?_eq_some (lookupFace_eq_some hf)
        obtain ⟨hvlen, hvnd, hvref⟩ := hm.2.2.2 (f, vs) hmemf
        have hu : u ∈ vs := List.elem_iff.1 (Bool.and_eq_true_iff.1 h1).1
        have hv : v ∈ vs := List.elem_iff.1 (Bool.and_eq_true_iff.1 h1).2
        have h2'' := Bool.or_eq_false_iff.1 h2'
        have huv : u ≠ v := by simpa using h2''.1
        have hgood := splitRuns_good vs u v hvnd hu hv huv h2''.2
        have hvert : ∀ x : Nat,
            hasVertexB (splitFace m f u v).1 x = hasVertexB m x := by
          intro x
          rw [hres]
          rfl
        rw [hres]
        intro p hp
        rw [← hres]
        have hp' : p ∈ m.faces.eraseP (fun p => p.1 == f) ++
            [(m.maxFace + 1, splitRunA vs u v),
             (m.maxFace + 2, splitRunB vs u v)] := hp
        rcases List.mem_append.1 hp' with hold | hnew
        · have hpm : p ∈ m.faces := List.eraseP_subset _ hold
          obtain ⟨hl, hn, hr⟩ := hm.2.2.2 p hpm
          exact ⟨hl, nodup_noCyclicRepeat (by omega) hn,
            fun z hz => by rw [hvert]; exact hr z hz⟩
        · rcases List.mem_cons.1 hnew with rfl | hnew'
          · exact ⟨hgood.1.1,
              nodup_noCyclicRepeat
                (by show 2 ≤ (splitRunA vs u v).length; omega) hgood.1.2.1,
              fun z hz => by rw [hvert]; exact hvref z (hgood.1.2.2 z hz)⟩
          · rcases List.mem_cons.1 hnew' with rfl | hnew''
            · exact ⟨hgood.2.1,
                nodup_noCyclicRepeat
                  (by show 2 ≤ (splitRunB vs u v).length; omega) hgood.2.2.1,
                fun z hz => by rw [hvert]; exact hvref z (hgood.2.2.2 z hz)⟩
            · simp at hnew''
    · simp only [splitFace, hf]
      rw [if_neg h1]
      exact meshValid_inv hm

theorem refLen_subst (m : Mesh) (a b : Nat) (fcs : Option (List Nat))
    (hm : MeshValid m) : RefLenInv (substituteVertexInFaces m a b fcs).1 := by
  by_cases hb : hasVertexB m b = true
  · have hres := substituteVertexInFaces_ok m a b fcs hb
    have hvert : ∀ x : Nat,
        hasVertexB (substituteVertexInFaces m a b fcs).1 x = hasVertexB m x := by
      intro x
      rw [hres]
      rfl
    intro p hp
    have hp' : p ∈ m.faces.map (fun p =>
        (p.1, if p.1 ∈ substTargets m a fcs then
          p.2.map (fun x => if x = a then b else x) else p.2)) := by
      have hfaces : (substituteVertexInFaces m a b fcs).1.faces
          = m.faces.map (fun p =>
            (p.1, if p.1 ∈ substTargets m a fcs then
              p.2.map (fun x => if x = a then b else x) else p.2)) := by
        rw [hres]
      rw [← hfaces]
      exact hp
    obtain ⟨q, hq, rfl⟩ := List.mem_map.1 hp'
    obtain ⟨hlen, _, href⟩ := hm.2.2.2 q hq
    refine ⟨?_, fun x hx => ?_⟩
    · show 3 ≤ (if q.1 ∈ substTargets m a fcs then
        q.2.map (fun x => if x = a then b else x) else q.2).length
      by_cases hmem : q.1 ∈ substTargets m a fcs
      · rw [if_pos hmem, List.length_map]
        exact hlen
      · rw [if_neg hmem]
        exact hlen
    · rw [hvert]
      replace hx : x ∈ (if q.1 ∈ substTargets m a fcs then
        q.2.map (fun x => if x = a then b else x) else q.2) := hx
      by_cases hmem : q.1 ∈ substTargets m a fcs
      · rw [if_pos hmem] at hx
        obtain ⟨z, hz, rfl⟩ := List.mem_map.1 hx
        by_cases hza : z = a
        · rw [if_pos hza]
          exact hb
        · rw [if_neg hza]
          exact href z hz
      · rw [if_neg hmem] at hx
        exact href x hx
  · rw [substituteVertexInFaces, if_neg hb]
    intro p hp
    obtain ⟨hl, _, hr⟩ := hm.2.2.2 p hp
    exact ⟨hl, hr⟩

theorem refLen_insert (m : Mesh) (u v : Nat) (vkey : Option Nat)
    (hm : MeshValid m) : RefLenInv (insertVertexOnEdge m u v vkey).1 := by
  have hrl : RefLenInv m := fun p hp =>
    ⟨(hm.2.2.2 p hp).1, (hm.2.2.2 p hp).2.2⟩
  by_cases h1 : (hasVertexB m u && hasVertexB m v) = true
  · by_cases h2 : incidentPairs m u v = []
    · rw [insertVertexOnEdge, if_pos h1, if_pos h2]
      exact hrl
    · have hres : insertVertexOnEdge m u v vkey
          = ({ vertices :=
                 (addVertex m (vkey.getD (freshVertexKey m))
                   (midpoint m u v)).vertices,
               faces := m.faces.map
                 (fun p => (p.1,
                    insertBetween p.2 u v (vkey.getD (freshVertexKey m)))),
               maxVertex := max m.maxVertex (vkey.getD (freshVertexKey m)),
               maxFace := m.maxFace },
             .ok (vkey.getD (freshVertexKey m))) := by
        rw [insertVertexOnEdge, if_pos h1, if_neg h2]
        rfl
      have hvert : ∀ x : Nat,
          hasVertexB (insertVertexOnEdge m u v vkey).1 x
            = (hasVertexB m x || (vkey.getD (freshVertexKey m) == x)) := by
        intro x
        rw [hres]
        exact hasVertexB_addVertex m _ (midpoint m u v) x
      intro p hp
      have hp' : p ∈ m.faces.map
          (fun p => (p.1,
            insertBetween p.2 u v (vkey.getD (freshVertexKey m)))) := by
        have hfaces : (insertVertexOnEdge m u v vkey).1.faces
            = m.faces.map
              (fun p => (p.1,
                insertBetween p.2 u v (vkey.getD (freshVertexKey m)))) := by
          rw [hres]
        rw [← hfaces]
        exact hp
      obtain ⟨q, hq, rfl⟩ := List.mem_map.1 hp'
      obtain ⟨hlen, _, href⟩ := hm.2.2.2 q hq
      rcases insertBetween_eq_or q.2 u v (vkey.getD (freshVertexKey m)) with
        heq | ⟨i, hi, heq⟩
      · simp only [heq]
        exact ⟨hlen, fun x hx => by rw [hvert, href x hx]; rfl⟩
      · simp only [heq]
        refine ⟨by rw [length_spliceAt hi]; omega, fun x hx => ?_⟩
        have hx' : x ∈ (vkey.getD (freshVertexKey m)) :: q.2 :=
          (List.Perm.mem_iff (spliceAt_perm q.2 i _)).1 hx
        rw [hvert]
        rcases List.mem_cons.1 hx' with rfl | hx''
        · simp
        · rw [href x hx'']
          rfl
  · rw [insertVertexOnEdge, if_neg h1]
    exact hrl

/-- Claim C9 (amended): starting from a valid mesh, `insert_vertex_on_edge`
with an auto-allocated identifier and `split_face` preserve all data-model
invariants (referential integrity, no immediate cyclic repeats, length at
least three); `insert_vertex_on_edge` with an arbitrary explicit identifier
and `substitute_vertex_in_faces` still preserve referential integrity and the
length bound, but both can create immediate repeats (the explicit identifier
may equal an edge endpoint, and substitution performs no duplicate check), so
they are excluded from the no-immediate-repeat clause. -/
theorem editOps_invariants :
    (∀ m u v, MeshValid m → MeshInv (insertVertexOnEdge m u v none).1) ∧
    (∀ m f u v, MeshValid m → MeshInv (splitFace m f u v).1) ∧
    (∀ m u v vkey, MeshValid m →
      RefLenInv (insertVertexOnEdge m u v vkey).1) ∧
    (∀ m a b fcs, MeshValid m →
      RefLenInv (substituteVertexInFaces m a b fcs).1) :=
  ⟨fun m u v hm => meshInv_insert m u v hm,
   fun m f u v hm => meshInv_split m f u v hm,
   fun m u v vkey hm => refLen_insert m u v vkey hm,
   fun m a b fcs hm => refLen_subst m a b fcs hm⟩

/-- The counterexample mesh for the invariant claim: a single triangle. -/
def meshTri : Mesh :=
  fromVerticesAndFaces [(0, 0, 0), (1, 0, 0), (0, 1, 0)] [[0, 1, 2]]

/-- Claim C9, counterexamples to the unamended claim: on a valid triangle
mesh, `substitute_vertex_in_faces(mesh, 0, 1)` succeeds and turns the face
into `[1, 1, 2]`, and `insert_vertex_on_edge(mesh, 0, 1, 0)` — an explicit
identifier equal to an edge endpoint — succeeds and turns the face into
`[0, 0, 1, 2]`; both results have an immediate repeat, so neither the
substitution operation nor explicit-identifier insertion preserves the
no-immediate-repeat invariant. -/
theorem substituteVertexInFaces_breaks_invariant :
    MeshValid meshTri ∧
    ((substituteVertexInFaces meshTri 0 1 none).2 = .ok () ∧
     lookupFace (substituteVertexInFaces meshTri 0 1 none).1 0
       = some [1, 1, 2] ∧
     ¬ MeshInv (substituteVertexInFaces meshTri 0 1 none).1) ∧
    ((insertVertexOnEdge meshTri 0 1 (some 0)).2 = .ok 0 ∧
     lookupFace (insertVertexOnEdge meshTri 0 1 (some 0)).1 0
       = some [0, 0, 1, 2] ∧
     ¬ MeshInv (insertVertexOnEdge meshTri 0 1 (some 0)).1) := by
  decide

/-- Claim C9 (amended), concrete witness: the operations applied to the valid
test meshes keep the invariants they are claimed to keep — including
referential integrity and the length bound for the very explicit-identifier
insertion that breaks the no-repeat clause. -/
theorem editOps_invariants_witness :
    (MeshValid mesh0 ∧ MeshValid meshQuads ∧ MeshValid meshTri) ∧
    MeshInv (insertVertexOnEdge mesh0 0 1 none).1 ∧
    MeshInv (splitFace meshQuads 0 0 2).1 ∧
    RefLenInv (insertVertexOnEdge meshTri 0 1 (some 0)).1 ∧
    RefLenInv (substituteVertexInFaces mesh0 0 4 none).1 :=
  ⟨⟨by decide, by decide, by decide⟩,
   editOps_invariants.1 mesh0 0 1 (by decide),
   editOps_invariants.2.1 meshQuads 0 0 2 (by decide),
   editOps_invariants.2.2.1 meshTri 0 1 (some 0) (by decide),
   editOps_invariants.2.2.2 mesh0 0 4 none (by decide)⟩

end Compas
